import Mathlib

/-!
Verification of the MyGurukul text-processing scripts.

The Python sources are shallowly embedded below; strings are modelled as
`List Char` (Python strings are sequences of Unicode code points, matching
Lean `Char`).  Each definition carries a comment naming the Python
function or fragment it embeds.
-/

namespace MyGurukul

/-! ## Character classes

These model the character predicates used by the Python `re` module and
string methods in the scripts.
-/

/-- Models Python `\d` (Unicode decimal digits, category Nd) restricted to the
digit ranges that occur in this corpus: ASCII `0-9`, Arabic-Indic, extended
Arabic-Indic, and Devanagari `०-९`.  Other Nd ranges never occur in the
repository inputs and are omitted from the model. -/
def pyIsDigit (c : Char) : Bool :=
  (0x30 ≤ c.toNat && c.toNat ≤ 0x39) ||
  (0x660 ≤ c.toNat && c.toNat ≤ 0x669) ||
  (0x6F0 ≤ c.toNat && c.toNat ≤ 0x6F9) ||
  (0x966 ≤ c.toNat && c.toNat ≤ 0x96F)

/-- Models Python `\s` / `str.strip` whitespace (`Py_UNICODE_ISSPACE`):
space, `\t\n\v\f\r`, the C1 separators 0x1C-0x1F, NEL, NBSP and the Unicode
space separators. -/
def pyIsSpace (c : Char) : Bool :=
  c.toNat == 0x20 || (0x9 ≤ c.toNat && c.toNat ≤ 0xD) ||
  (0x1C ≤ c.toNat && c.toNat ≤ 0x1F) || c.toNat == 0x85 ||
  c.toNat == 0xA0 || c.toNat == 0x1680 ||
  (0x2000 ≤ c.toNat && c.toNat ≤ 0x200A) ||
  c.toNat == 0x2028 || c.toNat == 0x2029 || c.toNat == 0x202F ||
  c.toNat == 0x205F || c.toNat == 0x3000

/-- Devanagari digits `१` through `९` (U+0967..U+096F): the character class
`[१-९]` used by the complex verse patterns.  Note it excludes `०` (U+0966). -/
def devDigit19 (c : Char) : Bool :=
  0x967 ≤ c.toNat && c.toNat ≤ 0x96F

/-! ## Python string helpers -/

/-- Models Python `str.strip()` on the left only. -/
def pyStripLeft (s : List Char) : List Char :=
  s.dropWhile pyIsSpace

/-- Models Python `str.strip()`: remove leading and trailing whitespace. -/
def pyStrip (s : List Char) : List Char :=
  ((s.dropWhile pyIsSpace).reverse.dropWhile pyIsSpace).reverse

/-- Models Python `text.split(sep)` for a single-character separator, e.g.
`text.split('\n')`: `""` splits to `[""]`, separators delimit fields. -/
def pySplitOn (sep : Char) : List Char → List (List Char)
  | [] => [[]]
  | c :: cs =>
    if c = sep then [] :: pySplitOn sep cs
    else
      match pySplitOn sep cs with
      | [] => [[c]]
      | l :: ls => (c :: l) :: ls

/-! ## Regex fragments used by the verse patterns

Every pattern in `generate_dictionary_from_metadata.py` is a sequence of
literal characters, `X+` and `X*` pieces where the character class of each
`+`/`*` piece is disjoint from the character that follows it.  For such
patterns Python's greedy backtracking matcher agrees with plain
maximal-munch scanning, so the embedding below scans greedily with no
backtracking.
-/

/-- One token of a marker pattern: a greedy `class+`, a greedy `class*`, or a
literal character. -/
inductive Tok where
  | plus (p : Char → Bool)
  | star (p : Char → Bool)
  | lit (c : Char)

/-- Run one token at the head of the input, returning the consumed characters
and the rest. -/
def runTok : Tok → List Char → Option (List Char × List Char)
  | .plus p, s =>
    let m := s.takeWhile p
    if m.isEmpty then none else some (m, s.dropWhile p)
  | .star p, s => some (s.takeWhile p, s.dropWhile p)
  | .lit _, [] => none
  | .lit c, x :: xs => if x = c then some ([c], xs) else none

/-- Run a token sequence at the head of the input (models `re.match` for the
verse marker patterns); returns the consumed characters and the rest. -/
def runToks : List Tok → List Char → Option (List Char × List Char)
  | [], s => some ([], s)
  | t :: ts, s =>
    match runTok t s with
    | none => none
    | some (m, r) =>
      match runToks ts r with
      | none => none
      | some (m2, r2) => some (m ++ m2, r2)

/-- Models `re.match(pattern, line)` followed by `match.group(1)`: in every
verse marker pattern the single group spans the whole pattern, so the group
is exactly the consumed text. -/
def reMatchGroup (toks : List Tok) (s : List Char) : Option (List Char) :=
  match runToks toks s with
  | none => none
  | some (m, _) => some m

/-! ## The verse marker patterns (`VersePatternProcessor`) -/

/-- Pattern `^(\d+\.\d+\.\d+)`. -/
def pat_d3 : List Tok :=
  [.plus pyIsDigit, .lit '.', .plus pyIsDigit, .lit '.', .plus pyIsDigit]

/-- Pattern `^(\d+\.\d+)`. -/
def pat_d2 : List Tok :=
  [.plus pyIsDigit, .lit '.', .plus pyIsDigit]

/-- Pattern `^(\d+\.)`. -/
def pat_dDot : List Tok :=
  [.plus pyIsDigit, .lit '.']

/-- Pattern `^(\d+)`. -/
def pat_d1 : List Tok :=
  [.plus pyIsDigit]

/-- Pattern `^(\d+:\d+)`. -/
def pat_dc2 : List Tok :=
  [.plus pyIsDigit, .lit ':', .plus pyIsDigit]

/-- Pattern `^(\d+:\d+:\d+)`. -/
def pat_dc3 : List Tok :=
  [.plus pyIsDigit, .lit ':', .plus pyIsDigit, .lit ':', .plus pyIsDigit]

/-- Pattern `^([१-९]+\.)`. -/
def pat_devDot : List Tok :=
  [.plus devDigit19, .lit '.']

/-- Pattern `^([१-९]+:[१-९]+)`. -/
def pat_devColon : List Tok :=
  [.plus devDigit19, .lit ':', .plus devDigit19]

/-- The double danda `॥` (U+0965). -/
def danda : Char := Char.ofNat 0x965

/-- Pattern `^(॥\s*\d+\s*॥)`. -/
def pat_dandaNum : List Tok :=
  [.lit danda, .star pyIsSpace, .plus pyIsDigit, .star pyIsSpace, .lit danda]

/-- Pattern `^(॥[१-९]+॥)`. -/
def pat_dandaDev : List Tok :=
  [.lit danda, .plus devDigit19, .lit danda]

/-- The ordered pattern list of `_extract_standard_verses`. -/
def standardPatterns : List (List Tok) :=
  [pat_d3, pat_d2, pat_dDot, pat_d1, pat_dc2, pat_dc3]

/-- The ordered pattern list of `_extract_complex_verses`. -/
def complexPatterns : List (List Tok) :=
  [pat_d3, pat_d2, pat_dDot, pat_d1, pat_devDot, pat_devColon,
   pat_dandaNum, pat_dandaDev]

/-- Try the patterns in order, returning the group of the first that matches
(the `for pattern in [...]` loop with `break` on first match). -/
def firstMatch : List (List Tok) → List Char → Option (List Char)
  | [], _ => none
  | p :: ps, s =>
    match reMatchGroup p s with
    | some g => some g
    | none => firstMatch ps s

/-! ## Verse records and the two extraction strategies -/

/-- The `type` tag of an emitted record. -/
inductive VType where
  | verse
  | irregular
deriving DecidableEq

/-- One emitted record: `{'marker': ..., 'content': ..., 'line_number': ...,
'type': ...}`. -/
structure VerseRecord where
  marker : List Char
  content : List Char
  line_number : Nat
  type : VType
deriving DecidableEq

/-- The character class of the irregular fallback, as Python actually parses
the regex `[\d\s\.:-ऀ-ॿ]`: the items are `\d`, `\s`, the literal
`.`, the RANGE `:` through `ऀ` (because `:-ऀ` is literal, dash,
literal inside a class), the literal `-`, and the literal `ॿ`.
In particular every ASCII letter lies inside the `:`..`U+0900` range, while
the Devanagari letters U+0901..U+097E (other than the digits, which `\d`
covers) lie outside the class.  Verified against CPython `re`. -/
def irregularClass (c : Char) : Bool :=
  pyIsDigit c || pyIsSpace c || c = '.' ||
  (0x3A ≤ c.toNat && c.toNat ≤ 0x900) || c = '-' || c.toNat == 0x97F

/-- Models `re.match(r'^[\d\s\.:-ऀ-ॿ]+$', line)` viewed as a
boolean: the (already stripped, newline-free) line is nonempty and all of its
characters lie in the class. -/
def irregularLine (s : List Char) : Bool :=
  !s.isEmpty && s.all irregularClass

/-- The body of the `for line_num, line in enumerate(lines, 1)` loop of
`_extract_standard_verses`: strip the line, skip it when blank, otherwise
emit a verse record on the first pattern match. -/
def standardStep (n : Nat) (line : List Char) : Option VerseRecord :=
  let line := pyStrip line
  if line.isEmpty then none
  else
    match firstMatch standardPatterns line with
    | some g => some ⟨g, line, n, .verse⟩
    | none => none

/-- The body of the loop of `_extract_complex_verses`: as `standardStep`, but
with the complex pattern list and the irregular fallback
(`len(line) < 20 and re.match(r'^[\d\s\.:-ऀ-ॿ]+$', line)`). -/
def complexStep (n : Nat) (line : List Char) : Option VerseRecord :=
  let line := pyStrip line
  if line.isEmpty then none
  else
    match firstMatch complexPatterns line with
    | some g => some ⟨g, line, n, .verse⟩
    | none =>
      if line.length < 20 && irregularLine line then
        some ⟨line, line, n, .irregular⟩
      else none

/-- The 1-indexed `enumerate` loop shared by both extractors, collecting the
records the step function emits. -/
def extractLines (step : Nat → List Char → Option VerseRecord) :
    Nat → List (List Char) → List VerseRecord
  | _, [] => []
  | n, l :: ls =>
    match step n l with
    | some r => r :: extractLines step (n + 1) ls
    | none => extractLines step (n + 1) ls

/-- Embeds `VersePatternProcessor._extract_standard_verses`. -/
def extract_standard_verses (text : List Char) : List VerseRecord :=
  extractLines standardStep 1 (pySplitOn '\n' text)

/-- Embeds `VersePatternProcessor._extract_complex_verses`. -/
def extract_complex_verses (text : List Char) : List VerseRecord :=
  extractLines complexStep 1 (pySplitOn '\n' text)

/-- Which characters a token can contribute to a match. -/
def tokSat : Tok → Char → Prop
  | .plus p, c => p c = true
  | .star p, c => p c = true
  | .lit d, c => c = d

/-- Spec-side line-coverage invariant of the Segmenter (claim C7): record line
numbers are pairwise distinct, each is the 1-based index of a non-blank input
line whose trimmed text is the record content, and at most one record is
emitted per non-blank line. -/
def segmenterLineInvariant (text : List Char) (records : List VerseRecord) : Prop :=
  (records.map (·.line_number)).Pairwise (· ≠ ·) ∧
  (∀ r ∈ records, 1 ≤ r.line_number ∧
     ∃ l, (pySplitOn '\n' text)[r.line_number - 1]? = some l ∧
       pyStrip l ≠ [] ∧ r.content = pyStrip l) ∧
  records.length ≤ ((pySplitOn '\n' text).filter (fun l => !(pyStrip l).isEmpty)).length

/-! ## The Chapter Isolator (`process_caraka_chapter.py`,
`process_caraka_chapter_ocr.py`)

The start/end patterns are built as `rf"CHAPTER\s+{n}\b"` and searched with
`re.IGNORECASE`.  Case-insensitivity is modelled over ASCII (the label is
ASCII); `\s+` is greedy over whitespace followed by a digit, and whitespace
and digits are disjoint, so maximal munch is exact; `\b` after the final
digit holds iff the next character is absent or not a word character.
-/

/-- ASCII lower-casing, modelling `re.IGNORECASE` on the ASCII pattern
letters. -/
def asciiLower (c : Char) : Char :=
  if 0x41 ≤ c.toNat && c.toNat ≤ 0x5A then Char.ofNat (c.toNat + 32) else c

/-- Match a literal ASCII word case-insensitively at the head of the input,
returning the rest. -/
def matchCI : List Char → List Char → Option (List Char)
  | [], s => some s
  | _ :: _, [] => none
  | p :: ps, c :: cs => if asciiLower c = asciiLower p then matchCI ps cs else none

/-- Match an exact literal at the head of the input, returning the rest. -/
def matchLitList : List Char → List Char → Option (List Char)
  | [], s => some s
  | _ :: _, [] => none
  | p :: ps, c :: cs => if c = p then matchLitList ps cs else none

/-- Models Python `\w` (word characters) for the texts at hand: ASCII
letters, decimal digits, underscore, and Devanagari letters; the danda
punctuation marks U+0964/U+0965 are not word characters. -/
def pyIsWordChar (c : Char) : Bool :=
  pyIsDigit c || (0x41 ≤ c.toNat && c.toNat ≤ 0x5A) ||
  (0x61 ≤ c.toNat && c.toNat ≤ 0x7A) || c = '_' ||
  (0x901 ≤ c.toNat && c.toNat ≤ 0x963) || (0x971 ≤ c.toNat && c.toNat ≤ 0x97F)

/-- Decimal digits of a natural number, as interpolated by the f-string
`rf"CHAPTER\s+{n}\b"`; fuel-based so that it reduces by `decide`. -/
def natDigitsGo : Nat → Nat → List Char → List Char
  | 0, _, acc => acc
  | fuel + 1, n, acc =>
    let d := Char.ofNat (0x30 + n % 10)
    if n < 10 then d :: acc else natDigitsGo fuel (n / 10) (d :: acc)

/-- Decimal representation of `n` (e.g. `21` becomes `"21"`). -/
def natDecimal (n : Nat) : List Char :=
  natDigitsGo (n + 1) n []

/-- The word-boundary `\b` sitting after the final digit of the chapter
number: satisfied at end of input or before a non-word character. -/
def boundaryOk : List Char → Bool
  | [] => true
  | c :: _ => !pyIsWordChar c

/-- Does `rf"CHAPTER\s+{n}\b"` (with `re.IGNORECASE`) match at the head of
`s`?  This is the start pattern of `isolate_chapter` (and the pattern for
`n + 1` is its end pattern). -/
def matchChapterAt (n : Nat) (s : List Char) : Bool :=
  match matchCI ("CHAPTER".data) s with
  | none => false
  | some r1 =>
    if (r1.takeWhile pyIsSpace).isEmpty then false
    else
      match matchLitList (natDecimal n) (r1.dropWhile pyIsSpace) with
      | none => false
      | some r2 => boundaryOk r2

/-- Does `rf"CHAPTER\s+{n}[:\.\s]"` (with `re.IGNORECASE`) match at the head
of `s`?  Third start pattern of the OCR variant: instead of `\b` it demands
one further character that is `:`, `.` or whitespace. -/
def matchChapterPunctAt (n : Nat) (s : List Char) : Bool :=
  match matchCI ("CHAPTER".data) s with
  | none => false
  | some r1 =>
    if (r1.takeWhile pyIsSpace).isEmpty then false
    else
      match matchLitList (natDecimal n) (r1.dropWhile pyIsSpace) with
      | none => false
      | some r2 =>
        match r2 with
        | [] => false
        | c :: _ => c = ':' || c = '.' || pyIsSpace c

/-- Does `rf"Ch\.?\s*{n}\b"` (with `re.IGNORECASE`) match at the head of
`s`?  Fourth start pattern of the OCR variant.  The greedy `\.?` and `\s*`
are exact here: refusing an available `.` or a whitespace character could
never let the following digit match. -/
def matchChAbbrevAt (n : Nat) (s : List Char) : Bool :=
  match matchCI ("Ch".data) s with
  | none => false
  | some r1 =>
    let r1' := match r1 with
      | '.' :: rest => rest
      | _ => r1
    match matchLitList (natDecimal n) (r1'.dropWhile pyIsSpace) with
    | none => false
    | some r2 => boundaryOk r2

/-- Models `re.search(pattern, s).start()`: the least offset at which the
pattern matches, if any. -/
def searchPos (p : List Char → Bool) : List Char → Option Nat
  | [] => if p [] then some 0 else none
  | c :: cs => if p (c :: cs) then some 0 else (searchPos p cs).map (· + 1)

/-- Embeds `isolate_chapter` of `process_caraka_chapter.py`: `None` on empty
input or when the start marker is absent; otherwise the slice
`full_text[start : start + end]` where `end` is searched only in
`full_text[start:]`, or `full_text[start:]` when no end marker is found. -/
def isolate_chapter (full_text : List Char) (n : Nat) : Option (List Char) :=
  if full_text.isEmpty then none
  else
    match searchPos (matchChapterAt n) full_text with
    | none => none
    | some i =>
      let tail := full_text.drop i
      match searchPos (matchChapterAt (n + 1)) tail with
      | some j => some (tail.take j)
      | none => some tail

/-- The ordered (start, end) pattern pairs of the OCR variant.  Under
`re.IGNORECASE` the first two pairs (`CHAPTER\s+n\b` and `Chapter\s+n\b`)
denote the same matcher, so both entries use `matchChapterAt`. -/
def ocrPatternPairs (n : Nat) : List ((List Char → Bool) × (List Char → Bool)) :=
  [(matchChapterAt n, matchChapterAt (n + 1)),
   (matchChapterAt n, matchChapterAt (n + 1)),
   (matchChapterPunctAt n, matchChapterPunctAt (n + 1)),
   (matchChAbbrevAt n, matchChAbbrevAt (n + 1))]

/-- The `for chapter_start_pattern, chapter_end_pattern in patterns:` loop of
the OCR `isolate_chapter`: return on the first pair whose start pattern
matches somewhere, slicing exactly as the plain variant does. -/
def isolateOcrGo : List ((List Char → Bool) × (List Char → Bool)) →
    List Char → Option (List Char)
  | [], _ => none
  | (ps, pe) :: rest, text =>
    match searchPos ps text with
    | some i =>
      let tail := text.drop i
      some (match searchPos pe tail with
        | some j => tail.take j
        | none => tail)
    | none => isolateOcrGo rest text

/-- Embeds `isolate_chapter` of `process_caraka_chapter_ocr.py`. -/
def isolate_chapter_ocr (full_text : List Char) (n : Nat) : Option (List Char) :=
  if full_text.isEmpty then none
  else isolateOcrGo (ocrPatternPairs n) full_text

/-! ## The response cleaner (`clean_response_text` of
`create_ramayana_metadata.py`) -/

/-- The left brace character. -/
def lbrace : Char := Char.ofNat 0x7B

/-- The right brace character. -/
def rbrace : Char := Char.ofNat 0x7D

/-- Models `re.sub(r"[\x00-\x1F\x7F]", "", text)`: remove the ASCII control
characters. -/
def stripControl (s : List Char) : List Char :=
  s.filter fun c => !(c.toNat ≤ 0x1F || c.toNat == 0x7F)

/-- Models `re.sub(r"^```(json)?\s*", "", s)`: the anchored pattern fires at
most once, greedily preferring the `json` suffix of the fence and then
swallowing following whitespace. -/
def dropFence (s : List Char) : List Char :=
  if List.isPrefixOf ("```json".data) s then (s.drop 7).dropWhile pyIsSpace
  else if List.isPrefixOf ("```".data) s then (s.drop 3).dropWhile pyIsSpace
  else s

/-- Models `re.sub(r"\s*```$", "", s)`: since the input has no newline left
(control characters were removed first), `$` is the very end, so the pattern
fires iff the string ends in a fence, removing it and the maximal whitespace
run before it. -/
def dropFenceEnd (s : List Char) : List Char :=
  if List.isSuffixOf ("```".data) s then
    ((s.take (s.length - 3)).reverse.dropWhile pyIsSpace).reverse
  else s

/-- Models `str.find(ch)` (`Option` instead of `-1`). -/
def firstIdx (ch : Char) : List Char → Option Nat
  | [] => none
  | c :: cs => if c = ch then some 0 else (firstIdx ch cs).map (· + 1)

/-- Models `str.rfind(ch)` (`Option` instead of `-1`). -/
def lastIdx (ch : Char) (s : List Char) : Option Nat :=
  match firstIdx ch s.reverse with
  | none => none
  | some k => some (s.length - 1 - k)

/-- Embeds `clean_response_text`: strip control characters, `str.strip`,
drop a leading and a trailing markdown fence, then return
`text[first_brace : last_brace + 1]` when a first `\x7b` occurs strictly
before the last `\x7d`, else the empty string. -/
def clean_response_text (text : List Char) : List Char :=
  let t := dropFenceEnd (dropFence (pyStrip (stripControl text)))
  match firstIdx lbrace t, lastIdx rbrace t with
  | some fb, some lb =>
    if fb < lb then (t.drop fb).take (lb + 1 - fb) else []
  | some _, none => []
  | none, _ => []

/-- Does the string contain a `\x7b` followed strictly later by a `\x7d`? -/
def hasBracePair : List Char → Bool
  | [] => false
  | c :: cs => (c = lbrace && cs.contains rbrace) || hasBracePair cs

/-! ## Manifest builders

The builders scan a directory tree; the filesystem walk itself is I/O, so a
builder's input is modelled as the alphabetically sorted listing the walk
produces: a list of folders, each carrying its name and its sorted `*.pdf`
file listing.  A chapter PDF is its filename stem plus the state of its
sibling `.json` metadata file.
-/

/-- State of a chapter PDF's sibling `.json` metadata file on disk: absent,
present but unreadable/invalid JSON, present with a `chapterTitle` field, or
present without one. -/
inductive JsonSibling where
  | absent
  | unreadable
  | withTitle (title : List Char)
  | withoutTitle
deriving DecidableEq

/-- Models `json_path.exists()`. -/
def JsonSibling.onDisk : JsonSibling → Bool
  | .absent => false
  | _ => true

/-- One chapter PDF inside a division folder. -/
structure PdfFile where
  stem : List Char
  sibling : JsonSibling
deriving DecidableEq

/-- A section/Kanda folder: its name and its sorted `*.pdf` listing. -/
structure Folder where
  name : List Char
  pdfs : List PdfFile
deriving DecidableEq

/-- One manifest chapter entry. -/
structure ChapterEntry where
  chapterId : List Char
  chapterNumber : Int
  title : List Char
  titleEnglish : List Char
  metadataUrl : List Char
  pdfUrl : List Char
  hasMetadata : Bool
deriving DecidableEq

/-- One manifest section entry. -/
structure SectionEntry where
  sectionId : List Char
  sectionName : List Char
  sectionNameEnglish : List Char
  chapterCount : Nat
  chapters : List ChapterEntry
deriving DecidableEq

/-- The generated manifest (the `lastUpdated` wall-clock timestamp is I/O
and not modelled). -/
structure Manifest where
  scriptureId : List Char
  scriptureName : List Char
  totalChapters : Nat
  sections : List SectionEntry
deriving DecidableEq

/-- An all-empty chapter entry, used only as a `getD` default. -/
def emptyChapterEntry : ChapterEntry :=
  ⟨[], 0, [], [], [], [], false⟩

/-- An all-empty manifest, used only as a `getD` default. -/
def emptyManifest : Manifest :=
  ⟨[], [], 0, []⟩

/-- Numeric value of a decimal digit of the ranges `pyIsDigit` accepts. -/
def digitVal (c : Char) : Nat :=
  if 0x30 ≤ c.toNat && c.toNat ≤ 0x39 then c.toNat - 0x30
  else if 0x660 ≤ c.toNat && c.toNat ≤ 0x669 then c.toNat - 0x660
  else if 0x6F0 ≤ c.toNat && c.toNat ≤ 0x6F9 then c.toNat - 0x6F0
  else c.toNat - 0x966

/-- A nonempty all-digit string to its value. -/
def digitsToNat (cs : List Char) : Option Nat :=
  if cs.isEmpty then none
  else if cs.all pyIsDigit then
    some (cs.foldl (fun acc c => acc * 10 + digitVal c) 0)
  else none

/-- Models Python `int(s)` on a string: optional surrounding whitespace, an
optional sign, then decimal digits; `None` models the `ValueError`.
(Underscore digit grouping is not modelled: every caller below first cuts
its token at the first `_`.) -/
def pyInt (s : List Char) : Option Int :=
  match pyStrip s with
  | '-' :: rest => (digitsToNat rest).map fun n => -(n : Int)
  | '+' :: rest => (digitsToNat rest).map fun n => (n : Int)
  | t => (digitsToNat t).map fun n => (n : Int)

/-- Least index at which `sep` occurs as a contiguous substring; models
Python `str.find(sep)` and the `in` operator. -/
def subIdx (sep : List Char) : List Char → Option Nat
  | [] => if List.isPrefixOf sep [] then some 0 else none
  | c :: cs =>
    if List.isPrefixOf sep (c :: cs) then some 0
    else (subIdx sep cs).map (· + 1)

/-- Models `stem.split("Chapter_")[1]` guarded by `if "Chapter_" in stem`,
then `part.split('_')[0] if '_' in part else part`: the text after the
first `Chapter_`, cut at the next `Chapter_` occurrence (where split field
1 ends), then cut at the first `_` (which is also the whole field when it
has no `_`). -/
def chapterToken (stem : List Char) : Option (List Char) :=
  match subIdx ("Chapter_".data) stem with
  | none => none
  | some i =>
    let rest := stem.drop (i + 8)
    let field1 :=
      match subIdx ("Chapter_".data) rest with
      | some j => rest.take j
      | none => rest
    some (field1.takeWhile (fun c => c ≠ '_'))

/-- Models Python `str(i)` for an `int`. -/
def intToStr (i : Int) : List Char :=
  if i < 0 then '-' :: natDecimal i.natAbs else natDecimal i.toNat

/-- `TABLE.get(name, "")` over an association list. -/
def lookupTranslation (table : List (List Char × List Char))
    (name : List Char) : List Char :=
  match table.find? (fun pr => pr.1 == name) with
  | some pr => pr.2
  | none => []

/-- The `SECTION_TRANSLATIONS` table of `generate_chapter_manifest.py`. -/
def SECTION_TRANSLATIONS : List (List Char × List Char) :=
  [("Sutrasthanam".data, "Foundational Principles".data),
   ("Nidanasthanam".data, "Diagnostics".data),
   ("Vimānasthanam".data, "Specific Determinations".data),
   ("Śārīrasthanam".data, "Anatomy & Physiology".data),
   ("Indriyasthanam".data, "Prognosis".data),
   ("Cikitsāsthanam".data, "Therapeutics".data),
   ("Kalpasthanam".data, "Pharmaceutics".data),
   ("Siddhisthanam".data, "Success in Treatment".data)]

/-- The Caraka builder's section-name parsing: `Section_<n>_<name>` gives id
`<n>` and the remaining parts re-joined on `_`; anything else gives id
`"unknown"` with the raw folder name.  (The enclosing `try` never fires: no
statement in it can raise.) -/
def carakaSectionInfo (name : List Char) : List Char × List Char :=
  let parts := pySplitOn '_' name
  if 3 ≤ parts.length ∧ parts.headD [] = ("Section".data) then
    (parts[1]?.getD [], List.intercalate ("_".data) (parts.drop 2))
  else (("unknown".data), name)

/-- The chapter loop shared by the Caraka and Sushruta builders:
`entry?` is the loop body up to `chapters.append(...)`; the accumulator is
(chapters so far, the manifest's running `totalChapters`), incremented
together exactly when an entry is appended. -/
def chapterLoop (entry? : PdfFile → Option ChapterEntry) :
    List PdfFile → List ChapterEntry × Nat → List ChapterEntry × Nat
  | [], acc => acc
  | pdf :: rest, (chs, tot) =>
    match entry? pdf with
    | none => chapterLoop entry? rest (chs, tot)
    | some e => chapterLoop entry? rest (chs ++ [e], tot + 1)

/-- The chapter-entry construction of `generate_chapter_manifest.py` for one
PDF: number parsed from the text after `Chapter_` (file skipped on
failure), GCS URLs by string concatenation, `hasMetadata` from the sibling
JSON's existence, and the title always the fallback `"Chapter {n}"`. -/
def carakaEntry (scriptureId sectionName : List Char) (pdf : PdfFile) :
    Option ChapterEntry :=
  match (chapterToken pdf.stem).bind pyInt with
  | none => none
  | some num => some {
      chapterId := intToStr num,
      chapterNumber := num,
      title := ("Chapter ".data) ++ intToStr num,
      titleEnglish := [],
      metadataUrl := ("gs://mygurukul-library/metadata/chapters/".data) ++
        scriptureId ++ ("/".data) ++ sectionName ++ ("/".data) ++
        pdf.stem ++ (".json".data),
      pdfUrl := ("gs://mygurukul-library/pdfs/".data) ++ scriptureId ++
        ("/".data) ++ sectionName ++ ("/".data) ++ pdf.stem ++ (".pdf".data),
      hasMetadata := pdf.sibling.onDisk }

/-- Sort chapters by `chapterNumber` (`chapters.sort(key=...)`; Python's
sort is stable, as is insertion sort). -/
def sortChapters (chs : List ChapterEntry) : List ChapterEntry :=
  List.insertionSort (fun a b => a.chapterNumber ≤ b.chapterNumber) chs

/-- The final `manifest["sections"].sort(key=lambda x: int(x["sectionId"]))`
wrapped in `try/except`: CPython computes all sort keys before reordering,
so when any id fails to parse the exception leaves the list unchanged. -/
def sortSections (secs : List SectionEntry) : List SectionEntry :=
  if secs.all fun s => (pyInt s.sectionId).isSome then
    List.insertionSort
      (fun a b => (pyInt a.sectionId).getD 0 ≤ (pyInt b.sectionId).getD 0) secs
  else secs

/-- The section loop of `generate_chapter_manifest.py`: skip folders with no
PDFs (`continue`), otherwise run the chapter loop threading the running
total, sort the chapters, and append a section entry whose `chapterCount`
is the length of its chapter list. -/
def carakaSections (scriptureId : List Char) :
    List Folder → List SectionEntry × Nat → List SectionEntry × Nat
  | [], acc => acc
  | f :: rest, (secs, tot) =>
    if f.pdfs.isEmpty then carakaSections scriptureId rest (secs, tot)
    else
      let info := carakaSectionInfo f.name
      let pair := chapterLoop (carakaEntry scriptureId f.name) f.pdfs ([], tot)
      let sorted := sortChapters pair.1
      carakaSections scriptureId rest
        (secs ++ [{ sectionId := info.1, sectionName := info.2,
                    sectionNameEnglish :=
                      lookupTranslation SECTION_TRANSLATIONS info.2,
                    chapterCount := sorted.length, chapters := sorted }],
         pair.2)

/-- Embeds `generate_chapter_manifest` of `generate_chapter_manifest.py`
over the folder listing: `None` when there are no section folders (the
missing-directory case is I/O and equally returns `None`). -/
def generate_chapter_manifest (folders : List Folder) : Option Manifest :=
  if folders.isEmpty then none
  else
    let pair := carakaSections ("caraka_samhita".data) folders ([], 0)
    some { scriptureId := "caraka_samhita".data,
           scriptureName := "Caraka Saṃhitā".data,
           totalChapters := pair.2,
           sections := sortSections pair.1 }

/-- Remove non-overlapping occurrences of `sep` left to right, with fuel
(each step consumes at least one character, so `s.length` fuel suffices). -/
def removeSubAux (sep : List Char) : Nat → List Char → List Char
  | 0, s => s
  | fuel + 1, s =>
    match subIdx sep s with
    | none => s
    | some i => s.take i ++ removeSubAux sep fuel (s.drop (i + sep.length))

/-- Models `s.replace(sep, "")` for a nonempty `sep`. -/
def pyRemoveAll (sep s : List Char) : List Char :=
  removeSubAux sep s.length s

/-- The `SECTION_TRANSLATIONS` table of the Sushruta builder. -/
def SUSHRUTA_TRANSLATIONS : List (List Char × List Char) :=
  [("Sutrasthanam".data, "Foundational Principles".data),
   ("Nidanasthanam".data, "Diagnostics".data),
   ("Sarirasthanam".data, "Anatomy".data),
   ("Chikitsasthanam".data, "Therapeutics".data),
   ("Kalpasthanam".data, "Pharmaceutics".data),
   ("Uttaratantram".data, "Supplementary Treatise".data)]

/-- `extract_section_info` of the Sushruta builder: delete the
`Sushruta_Samhita_` / `sushruta_samhita_` prefixes wherever they occur
(Python `str.replace`), then parse `Section_<n>_<name>` keyed on a substring
test; with fewer than 3 parts or no `Section_` substring fall back to
`"unknown"`. -/
def sushrutaSectionInfo (folderName : List Char) : List Char × List Char :=
  let clean := pyRemoveAll ("sushruta_samhita_".data)
    (pyRemoveAll ("Sushruta_Samhita_".data) folderName)
  if (subIdx ("Section_".data) clean).isSome then
    let parts := pySplitOn '_' clean
    if 3 ≤ parts.length then
      (parts[1]?.getD [], List.intercalate ("_".data) (parts.drop 2))
    else (("unknown".data), clean)
  else (("unknown".data), folderName)

/-- The chapter-entry construction of the Sushruta builder: same number
parsing and fallback title as the Caraka one, but with its own bucket/base
URL prefix using the raw folder name. -/
def sushrutaEntry (folderName : List Char) (pdf : PdfFile) :
    Option ChapterEntry :=
  match (chapterToken pdf.stem).bind pyInt with
  | none => none
  | some num => some {
      chapterId := intToStr num,
      chapterNumber := num,
      title := ("Chapter ".data) ++ intToStr num,
      titleEnglish := [],
      metadataUrl :=
        ("gs://mygurukul-sacred-texts-corpus/Gurukul_Library/Primary_Texts/Ayurveda/Sushruta_Samhita/".data)
          ++ folderName ++ ("/".data) ++ pdf.stem ++ (".json".data),
      pdfUrl :=
        ("gs://mygurukul-sacred-texts-corpus/Gurukul_Library/Primary_Texts/Ayurveda/Sushruta_Samhita/".data)
          ++ folderName ++ ("/".data) ++ pdf.stem ++ (".pdf".data),
      hasMetadata := pdf.sibling.onDisk }

/-- The section loop of the Sushruta builder: unlike the Caraka one it
appends a section entry even for a folder without PDFs. -/
def sushrutaSections :
    List Folder → List SectionEntry × Nat → List SectionEntry × Nat
  | [], acc => acc
  | f :: rest, (secs, tot) =>
    let info := sushrutaSectionInfo f.name
    let pair := chapterLoop (sushrutaEntry f.name) f.pdfs ([], tot)
    let sorted := sortChapters pair.1
    sushrutaSections rest
      (secs ++ [{ sectionId := info.1, sectionName := info.2,
                  sectionNameEnglish :=
                    lookupTranslation SUSHRUTA_TRANSLATIONS info.2,
                  chapterCount := sorted.length, chapters := sorted }],
       pair.2)

/-- Embeds `main` of `generate_chapter_manifest_sushruta_samhita_copy.py`
(minus file output; the missing-directory early return is I/O). -/
def sushruta_main (folders : List Folder) : Manifest :=
  let pair := sushrutaSections folders ([], 0)
  { scriptureId := "sushruta_samhita".data,
    scriptureName := "Sushruta Saṃhitā".data,
    totalChapters := pair.2,
    sections := sortSections pair.1 }

/-! ## The Ramayana manifest builder
(`generate_chapter_manifest_ramayana.py`) -/

/-- Embeds `extract_kanda_info`: `re.match(r"(\d+)\.\s*(.+?)\s*$", name)`
plus `int` plus normalisation.  The greedy digits must be followed by a
literal dot; the lazy group with the trailing `\s*$` then captures the rest
minus trailing whitespace and needs at least one character; the captured
name is stripped again, giving `pyStrip rest` overall.  Returns
`(kanda_num, "Kanda {num}: {name}")`, or `none` for the `(None, None)`
outcome. -/
def extract_kanda_info (folderName : List Char) : Option (Nat × List Char) :=
  let ds := folderName.takeWhile pyIsDigit
  if ds.isEmpty then none
  else
    match folderName.dropWhile pyIsDigit with
    | '.' :: rest =>
      if rest.isEmpty then none
      else
        match digitsToNat ds with
        | none => none
        | some num =>
          some (num, ("Kanda ".data) ++ natDecimal num ++ (": ".data) ++ pyStrip rest)
    | _ => none

/-- The Kanda-folder filter `re.match(r"^\d+\.\s+.+", d.name)`: digits, a
dot, at least one whitespace character, then at least one further character
(`.` matches any character here: folder names contain no newline). -/
def kandaFolderFilter (name : List Char) : Bool :=
  !((name.takeWhile pyIsDigit).isEmpty) &&
    match name.dropWhile pyIsDigit with
    | '.' :: c :: rest2 => pyIsSpace c && !rest2.isEmpty
    | _ => false

/-- The sort key `extract_kanda_info(d.name)[0] or 999`: Python `or` maps
both `None` and `0` to 999. -/
def kandaSortKey (f : Folder) : Nat :=
  match extract_kanda_info f.name with
  | none => 999
  | some (0, _) => 999
  | some (n, _) => n

/-- Match `(?:CHAPTER|Chapter)\s+(\d+)` (with `re.IGNORECASE` the two
alternatives are one case-insensitive literal) at the head of the input,
returning the digit group. -/
def matchChapterNumToken (s : List Char) : Option (List Char) :=
  match matchCI ("CHAPTER".data) s with
  | none => none
  | some r1 =>
    if (r1.takeWhile pyIsSpace).isEmpty then none
    else
      let r2 := r1.dropWhile pyIsSpace
      let ds := r2.takeWhile pyIsDigit
      if ds.isEmpty then none else some ds

/-- The class `[IVX]` under `re.IGNORECASE`. -/
def isIVX (c : Char) : Bool :=
  c = 'I' || c = 'V' || c = 'X' || c = 'i' || c = 'v' || c = 'x'

/-- Match `(?:CHAPTER|Chapter)\s+([IVX]+)` (IGNORECASE) at the head,
returning the Roman-numeral group. -/
def matchChapterRomanToken (s : List Char) : Option (List Char) :=
  match matchCI ("CHAPTER".data) s with
  | none => none
  | some r1 =>
    if (r1.takeWhile pyIsSpace).isEmpty then none
    else
      let r2 := r1.dropWhile pyIsSpace
      let ds := r2.takeWhile isIVX
      if ds.isEmpty then none else some ds

/-- Models `re.search` for a head-matcher returning a value: try every
suffix left to right. -/
def searchMap {α : Type} (f : List Char → Option α) : List Char → Option α
  | [] => f []
  | c :: cs =>
    match f (c :: cs) with
    | some x => some x
    | none => searchMap f cs

/-- ASCII upper-casing (`str.upper()` on the Roman-numeral group, whose
characters are limited to `IVXivx`). -/
def asciiUpper (c : Char) : Char :=
  if 0x61 ≤ c.toNat && c.toNat ≤ 0x7A then Char.ofNat (c.toNat - 32) else c

/-- The `roman_to_int` table after `.upper()` (only the uppercase keys can
be hit); `roman_to_int.get(roman, None)` is the `none` fallback. -/
def romanLookup (s : List Char) : Option Int :=
  let u := s.map asciiUpper
  if u = ("I".data) then some 1 else if u = ("II".data) then some 2
  else if u = ("III".data) then some 3 else if u = ("IV".data) then some 4
  else if u = ("V".data) then some 5 else if u = ("VI".data) then some 6
  else if u = ("VII".data) then some 7 else if u = ("VIII".data) then some 8
  else if u = ("IX".data) then some 9 else if u = ("X".data) then some 10
  else if u = ("XI".data) then some 11 else if u = ("XII".data) then some 12
  else if u = ("XIII".data) then some 13 else if u = ("XIV".data) then some 14
  else if u = ("XV".data) then some 15 else none

/-- Embeds `extract_chapter_number`: search for an Arabic chapter number
first, then fall back to the Roman-numeral table, else `None`. -/
def extract_chapter_number (filename : List Char) : Option Int :=
  match searchMap matchChapterNumToken filename with
  | some ds => (digitsToNat ds).map fun n => (n : Int)
  | none =>
    match searchMap matchChapterRomanToken filename with
    | some rs => romanLookup rs
    | none => none

/-- Helper for `collapseWs`: the flag records whether we are inside a
whitespace run whose single replacement space was already emitted. -/
def collapseWsGo : Bool → List Char → List Char
  | _, [] => []
  | inRun, c :: cs =>
    if pyIsSpace c then
      if inRun then collapseWsGo true cs else ' ' :: collapseWsGo true cs
    else c :: collapseWsGo false cs

/-- `re.sub(r"\s+", " ", s)`: collapse each whitespace run to one space. -/
def collapseWs (s : List Char) : List Char :=
  collapseWsGo false s

/-- `re.sub(r"^(?:CHAPTER|Chapter)\s+\d+\s+", "", s, flags=IGNORECASE)`:
drop a leading chapter label with its number and the following whitespace
run (anchored, so it fires at most once; each greedy piece is followed by a
disjoint class, so maximal munch is exact). -/
def dropChapterNumTag (s : List Char) : List Char :=
  match matchCI ("CHAPTER".data) s with
  | none => s
  | some r1 =>
    if (r1.takeWhile pyIsSpace).isEmpty then s
    else
      let r2 := r1.dropWhile pyIsSpace
      if (r2.takeWhile pyIsDigit).isEmpty then s
      else
        let r3 := r2.dropWhile pyIsDigit
        if (r3.takeWhile pyIsSpace).isEmpty then s
        else r3.dropWhile pyIsSpace

/-- `re.sub(r"^(?:CHAPTER|Chapter)\s+[IVX]+\s+", "", s, flags=IGNORECASE)`. -/
def dropChapterRomanTag (s : List Char) : List Char :=
  match matchCI ("CHAPTER".data) s with
  | none => s
  | some r1 =>
    if (r1.takeWhile pyIsSpace).isEmpty then s
    else
      let r2 := r1.dropWhile pyIsSpace
      if (r2.takeWhile isIVX).isEmpty then s
      else
        let r3 := r2.dropWhile isIVX
        if (r3.takeWhile pyIsSpace).isEmpty then s
        else r3.dropWhile pyIsSpace

/-- `cleaned.replace("_", " ").replace("-", " ")`. -/
def underscoreHyphenToSpace (s : List Char) : List Char :=
  s.map fun c => if c = '_' || c = '-' then ' ' else c

/-- Embeds `derive_fallback_title` on the filename stem (the function first
takes `Path(filename).stem`, which recovers the stem our model stores). -/
def derive_fallback_title (stem : List Char) : List Char :=
  let c1 := dropChapterRomanTag (dropChapterNumTag stem)
  let c2 := underscoreHyphenToSpace c1
  let c3 := pyStrip (collapseWs c2)
  if c3.isEmpty then ("Ramayana Chapter".data) else c3

/-- The Ramayana per-PDF chapter entry (lines 162-210 of the builder):
number from the filename (with extension), title from the sibling JSON's
`chapterTitle` when the JSON exists, is readable and has the key (fallback
title otherwise; a read failure also clears `hasMetadata`), `metadataUrl`
empty without usable metadata. -/
def ramayanaEntry (folderName : List Char) (pdf : PdfFile) :
    Option ChapterEntry :=
  match extract_chapter_number (pdf.stem ++ (".pdf".data)) with
  | none => none
  | some num =>
    let fallback := derive_fallback_title pdf.stem
    let tm : List Char × Bool :=
      match pdf.sibling with
      | .absent => (fallback, false)
      | .unreadable => (fallback, false)
      | .withTitle t => (t, true)
      | .withoutTitle => (fallback, true)
    some {
      chapterId := intToStr num,
      chapterNumber := num,
      title := tm.1,
      titleEnglish := tm.1,
      metadataUrl := if tm.2 then
          ("gs://mygurukul-sacred-texts-corpus/Gurukul_Library/Primary_Texts/Epics/Ramayana/".data)
            ++ folderName ++ ("/".data) ++ pdf.stem ++ (".json".data)
        else [],
      pdfUrl :=
        ("gs://mygurukul-sacred-texts-corpus/Gurukul_Library/Primary_Texts/Epics/Ramayana/".data)
          ++ folderName ++ ("/".data) ++ pdf.stem ++ (".pdf".data),
      hasMetadata := tm.2 }

/-- The Kanda loop: skip folders whose info does not parse and folders
without PDFs, otherwise append a section entry as the other builders do. -/
def ramayanaSections :
    List Folder → List SectionEntry × Nat → List SectionEntry × Nat
  | [], acc => acc
  | f :: rest, (secs, tot) =>
    match extract_kanda_info f.name with
    | none => ramayanaSections rest (secs, tot)
    | some info =>
      if f.pdfs.isEmpty then ramayanaSections rest (secs, tot)
      else
        let pair := chapterLoop (ramayanaEntry f.name) f.pdfs ([], tot)
        let sorted := sortChapters pair.1
        ramayanaSections rest
          (secs ++ [{ sectionId := natDecimal info.1, sectionName := info.2,
                      sectionNameEnglish := info.2,
                      chapterCount := sorted.length, chapters := sorted }],
           pair.2)

/-- Embeds `generate_chapter_manifest` of the Ramayana builder: filter the
Kanda folders, sort them by the `or 999` key (Python `sorted` is stable),
process each, and sort the sections by numeric id (every id is
`str(kanda_num)`, so the bare sort cannot raise here). -/
def generate_chapter_manifest_ramayana (folders : List Folder) :
    Option Manifest :=
  let kanda := List.insertionSort (fun a b => kandaSortKey a ≤ kandaSortKey b)
    (folders.filter fun f => kandaFolderFilter f.name)
  if kanda.isEmpty then none
  else
    let pair := ramayanaSections kanda ([], 0)
    some { scriptureId := "ramayana_valmiki".data,
           scriptureName := "Ramayana by Valmiki".data,
           totalChapters := pair.2,
           sections := List.insertionSort
             (fun a b => (pyInt a.sectionId).getD 0 ≤ (pyInt b.sectionId).getD 0)
             pair.1 }

/-! ## Lemmas about the segmenter -/

theorem standardStep_inv {n : Nat} {l : List Char} {r : VerseRecord}
    (h : standardStep n l = some r) :
    pyStrip l ≠ [] ∧ ∃ g, firstMatch standardPatterns (pyStrip l) = some g ∧
      r = ⟨g, pyStrip l, n, .verse⟩ := by
  simp only [standardStep] at h
  split at h
  · cases h
  next he =>
    split at h
    next g hm => exact ⟨by simpa using he, g, hm, (Option.some.inj h).symm⟩
    next => cases h

theorem complexStep_inv {n : Nat} {l : List Char} {r : VerseRecord}
    (h : complexStep n l = some r) :
    pyStrip l ≠ [] ∧ r.line_number = n ∧ r.content = pyStrip l := by
  simp only [complexStep] at h
  split at h
  · cases h
  next he =>
    refine ⟨by simpa using he, ?_⟩
    split at h
    next g hm =>
      cases h
      exact ⟨rfl, rfl⟩
    next =>
      split at h
      · cases h
        exact ⟨rfl, rfl⟩
      · cases h

theorem extractLines_mem {step : Nat → List Char → Option VerseRecord} :
    ∀ {k : Nat} {ls : List (List Char)} {r : VerseRecord},
      r ∈ extractLines step k ls →
      ∃ i l, i < ls.length ∧ ls[i]? = some l ∧ step (k + i) l = some r := by
  intro k ls
  induction ls generalizing k with
  | nil => intro r hr; simp [extractLines] at hr
  | cons l0 ls ih =>
    intro r hr
    cases h0 : step k l0 with
    | some r0 =>
      rw [extractLines, h0] at hr
      rcases List.mem_cons.mp hr with rfl | hr
      · exact ⟨0, l0, by simp, by simp, by simpa using h0⟩
      · obtain ⟨i, l, hi, hl, hs⟩ := ih hr
        refine ⟨i + 1, l, by simpa using hi, by simpa using hl, ?_⟩
        have heq : k + (i + 1) = k + 1 + i := by omega
        rw [heq]; exact hs
    | none =>
      rw [extractLines, h0] at hr
      obtain ⟨i, l, hi, hl, hs⟩ := ih hr
      refine ⟨i + 1, l, by simpa using hi, by simpa using hl, ?_⟩
      have heq : k + (i + 1) = k + 1 + i := by omega
      rw [heq]; exact hs

theorem extractLines_pairwise {step : Nat → List Char → Option VerseRecord}
    (hstep : ∀ n l r, step n l = some r → r.line_number = n) :
    ∀ (k : Nat) (ls : List (List Char)),
      ((extractLines step k ls).map (·.line_number)).Pairwise (· < ·) := by
  intro k ls
  induction ls generalizing k with
  | nil => simp [extractLines]
  | cons l0 ls ih =>
    cases h0 : step k l0 with
    | none => rw [extractLines, h0]; exact ih (k + 1)
    | some r0 =>
      rw [extractLines, h0, List.map_cons]
      refine List.Pairwise.cons ?_ (ih (k + 1))
      intro m hm
      obtain ⟨r, hr, rfl⟩ := List.mem_map.mp hm
      obtain ⟨i, l, hi, hl, hs⟩ := extractLines_mem hr
      have h1 := hstep _ _ _ hs
      have h2 := hstep _ _ _ h0
      omega

theorem extractLines_length_le {step : Nat → List Char → Option VerseRecord}
    (hstep : ∀ n l r, step n l = some r → (pyStrip l).isEmpty = false) :
    ∀ (k : Nat) (ls : List (List Char)),
      (extractLines step k ls).length ≤
        (ls.filter (fun l => !(pyStrip l).isEmpty)).length := by
  intro k ls
  induction ls generalizing k with
  | nil => simp [extractLines]
  | cons l0 ls ih =>
    cases h0 : step k l0 with
    | none =>
      rw [extractLines, h0]
      refine le_trans (ih (k + 1)) ?_
      rw [List.filter_cons]
      split <;> simp
    | some r0 =>
      have hne := hstep _ _ _ h0
      rw [extractLines, h0, List.filter_cons, if_pos (by simp [hne])]
      simpa using ih (k + 1)

theorem runTok_chars {t : Tok} {s m r : List Char} (h : runTok t s = some (m, r)) :
    ∀ c ∈ m, tokSat t c := by
  cases t with
  | plus p =>
    simp only [runTok] at h
    split at h
    · cases h
    · cases h
      intro c hc
      simpa [tokSat] using List.mem_takeWhile_imp hc
  | star p =>
    simp only [runTok] at h
    cases h
    intro c hc
    simpa [tokSat] using List.mem_takeWhile_imp hc
  | lit d =>
    cases s with
    | nil => cases h
    | cons x xs =>
      simp only [runTok] at h
      split at h
      · cases h
        intro c hc
        simpa [tokSat] using List.mem_singleton.mp hc
      · cases h

theorem runToks_chars : ∀ {toks : List Tok} {s m r : List Char},
    runToks toks s = some (m, r) → ∀ c ∈ m, ∃ t ∈ toks, tokSat t c := by
  intro toks
  induction toks with
  | nil =>
    intro s m r h c hc
    simp only [runToks, Option.some.injEq, Prod.mk.injEq] at h
    obtain ⟨rfl, rfl⟩ := h
    simp at hc
  | cons t ts ih =>
    intro s m r h c hc
    cases h1 : runTok t s with
    | none => rw [runToks, h1] at h; cases h
    | some p1 =>
      obtain ⟨m1, r1⟩ := p1
      simp only [runToks, h1] at h
      cases h2 : runToks ts r1 with
      | none => rw [h2] at h; cases h
      | some p2 =>
        obtain ⟨m2, r2⟩ := p2
        simp only [h2, Option.some.injEq, Prod.mk.injEq] at h
        obtain ⟨rfl, rfl⟩ := h
        rcases List.mem_append.mp hc with hc1 | hc2
        · exact ⟨t, List.mem_cons_self t ts, runTok_chars h1 c hc1⟩
        · obtain ⟨t2, ht2, hsat⟩ := ih h2 c hc2
          exact ⟨t2, List.mem_cons_of_mem _ ht2, hsat⟩

theorem firstMatch_eq_of_earliest :
    ∀ {pats : List (List Tok)} {s g : List Char} {i : Nat} {p : List Tok},
      pats[i]? = some p → reMatchGroup p s = some g →
      (∀ k q, k < i → pats[k]? = some q → reMatchGroup q s = none) →
      firstMatch pats s = some g := by
  intro pats
  induction pats with
  | nil => intro s g i p hp _ _; simp at hp
  | cons p0 rest ih =>
    intro s g i p hp hg hearlier
    cases i with
    | zero =>
      rw [List.getElem?_cons_zero] at hp
      cases hp
      rw [firstMatch, hg]
    | succ i =>
      have h0 : reMatchGroup p0 s = none :=
        hearlier 0 p0 (Nat.succ_pos i) List.getElem?_cons_zero
      rw [firstMatch, h0]
      rw [List.getElem?_cons_succ] at hp
      exact ih hp hg fun k q hk hq =>
        hearlier (k + 1) q (by omega) (by simpa using hq)

theorem firstMatch_inv :
    ∀ {pats : List (List Tok)} {s g : List Char},
      firstMatch pats s = some g →
      ∃ (i : Nat) (p : List Tok), pats[i]? = some p ∧ reMatchGroup p s = some g ∧
        ∀ k q, k < i → pats[k]? = some q → reMatchGroup q s = none := by
  intro pats
  induction pats with
  | nil => intro s g h; simp [firstMatch] at h
  | cons p0 rest ih =>
    intro s g h
    rw [firstMatch] at h
    cases h0 : reMatchGroup p0 s with
    | some g0 =>
      rw [h0] at h
      cases h
      exact ⟨0, p0, List.getElem?_cons_zero, h0, fun k q hk _ => absurd hk (Nat.not_lt_zero k)⟩
    | none =>
      rw [h0] at h
      obtain ⟨i, p, hp, hg, he⟩ := ih h
      refine ⟨i + 1, p, by simpa using hp, hg, ?_⟩
      intro k q hk hq
      cases k with
      | zero =>
        rw [List.getElem?_cons_zero] at hq
        cases hq
        exact h0
      | succ k =>
        rw [List.getElem?_cons_succ] at hq
        exact he k q (by omega) hq

theorem reMatchGroup_plus_head_none {p : Char → Bool} {rest : List Tok} {s : List Char}
    (h : s.takeWhile p = []) :
    reMatchGroup (.plus p :: rest) s = none := by
  simp [reMatchGroup, runToks, runTok, h]

theorem takeWhile_digits_nil_of_d1_none {s : List Char}
    (h : reMatchGroup pat_d1 s = none) : s.takeWhile pyIsDigit = [] := by
  by_contra hne
  simp [reMatchGroup, pat_d1, runToks, runTok, List.isEmpty_iff, hne] at h

theorem no_colon_in_group {toks : List Tok} {s g : List Char}
    (htoks : ∀ t ∈ toks, ¬ tokSat t ':')
    (h : reMatchGroup toks s = some g) : ':' ∉ g := by
  intro hc
  simp only [reMatchGroup] at h
  cases hrun : runToks toks s with
  | none => rw [hrun] at h; cases h
  | some pr =>
    obtain ⟨m, r⟩ := pr
    rw [hrun] at h
    cases h
    obtain ⟨t, ht, hsat⟩ := runToks_chars hrun ':' hc
    exact htoks t ht hsat

theorem segmenter_invariant_of_step {step : Nat → List Char → Option VerseRecord}
    (h1 : ∀ n l r, step n l = some r → r.line_number = n)
    (h2 : ∀ n l r, step n l = some r →
      r.content = pyStrip l ∧ (pyStrip l).isEmpty = false)
    (text : List Char) :
    segmenterLineInvariant text (extractLines step 1 (pySplitOn '\n' text)) := by
  refine ⟨?_, ?_, ?_⟩
  · exact (extractLines_pairwise h1 1 _).imp fun h => Nat.ne_of_lt h
  · intro r hr
    obtain ⟨i, l, hi, hl, hs⟩ := extractLines_mem hr
    have hn := h1 _ _ _ hs
    obtain ⟨hc, hne⟩ := h2 _ _ _ hs
    refine ⟨by omega, l, ?_, by simpa using hne, hc⟩
    have heq : r.line_number - 1 = i := by omega
    rw [heq]; exact hl
  · exact extractLines_length_le (fun n l r h => (h2 n l r h).2) 1 _

/-! ## Claim theorems about the segmenter -/

/-- Claim C1 (code bug): the complex-strategy irregular fallback at the
failing inputs.  The claim (and §4.1 of the spec) describe the fallback
class as digits, whitespace, `.`, `:`, `-`, and Devanagari-block
characters, so the short all-ASCII-letter line `"abc"` should produce no
record, while the short Devanagari-letter line `"क"` should produce an
irregular record.  The code does the opposite on both, because `:-ऀ`
inside its character class parses as the range U+003A..U+0900 (which
contains every ASCII letter and misses U+0901..U+097E). -/
theorem C1_irregular_fallback_at_failing_inputs :
    extract_complex_verses ("abc".data) =
      [⟨"abc".data, "abc".data, 1, .irregular⟩] ∧
    extract_complex_verses ("क".data) = [] ∧
    irregularClass 'a' = true ∧ irregularClass 'क' = false := by
  exact ⟨by decide, by decide, by decide, by decide⟩

/-- Claim C7: for both strategies, record line numbers are pairwise
distinct 1-based indices of non-blank input lines, each record content is
the trimmed line, and at most one record is emitted per non-blank line. -/
theorem C7_line_coverage_invariant (text : List Char) :
    segmenterLineInvariant text (extract_standard_verses text) ∧
    segmenterLineInvariant text (extract_complex_verses text) := by
  constructor
  · refine segmenter_invariant_of_step ?_ ?_ text
    · intro n l r h
      obtain ⟨_, g, _, rfl⟩ := standardStep_inv h
      rfl
    · intro n l r h
      obtain ⟨hne, g, _, rfl⟩ := standardStep_inv h
      exact ⟨rfl, by simpa using hne⟩
  · refine segmenter_invariant_of_step ?_ ?_ text
    · intro n l r h
      exact (complexStep_inv h).2.1
    · intro n l r h
      obtain ⟨hne, _, hc⟩ := complexStep_inv h
      exact ⟨hc, by simpa using hne⟩

/-- Claim C8: under the complex strategy, when pattern number `i` of the
ordered list matches the trimmed line and every earlier pattern fails, the
emitted record's marker is exactly the group of pattern `i` — first match
in list order wins. -/
theorem C8_pattern_priority (line : List Char) (n i : Nat) (p : List Tok) (g : List Char)
    (hp : complexPatterns[i]? = some p)
    (hg : reMatchGroup p (pyStrip line) = some g)
    (hearlier : ∀ k q, k < i → complexPatterns[k]? = some q →
      reMatchGroup q (pyStrip line) = none) :
    complexStep n line = some ⟨g, pyStrip line, n, .verse⟩ := by
  have hfm : firstMatch complexPatterns (pyStrip line) = some g :=
    firstMatch_eq_of_earliest hp hg hearlier
  have hne : (pyStrip line).isEmpty = false := by
    cases hsl : pyStrip line with
    | nil =>
      rw [hsl] at hg
      have hmem : p ∈ complexPatterns := List.getElem?_mem hp
      have hall : ∀ q ∈ complexPatterns, reMatchGroup q ([] : List Char) = none := by
        decide
      rw [hall p hmem] at hg
      cases hg
    | cons a as => rfl
  simp [complexStep, hne, hfm]

/-- Witness for C8 at the spec's own example: the line `"1.2.3 text"`
matches both the three-component and the two-component dotted patterns, and
the emitted marker is `"1.2.3"` from the three-component pattern, which is
first in list order. -/
theorem C8_pattern_priority_witness :
    complexStep 1 ("1.2.3 text".data) =
      some ⟨"1.2.3".data, "1.2.3 text".data, 1, .verse⟩ := by
  have h := C8_pattern_priority ("1.2.3 text".data) 1 0 pat_d3 ("1.2.3".data)
    rfl (by decide) (fun k q hk _ => absurd hk (Nat.not_lt_zero k))
  have hstrip : pyStrip ("1.2.3 text".data) = "1.2.3 text".data := by decide
  rw [hstrip] at h
  exact h

/-- Claim C10: under the standard strategy the colon-separated patterns sit
after the bare-number pattern in the ordered list and are unreachable — no
emitted marker ever contains a colon — and the line `"1:2 text"` yields
marker `"1"` with type `verse`. -/
theorem C10_colon_patterns_unreachable (text : List Char) :
    (∀ r ∈ extract_standard_verses text, ':' ∉ r.marker) ∧
    extract_standard_verses ("1:2 text".data) =
      [⟨"1".data, "1:2 text".data, 1, .verse⟩] := by
  constructor
  · intro r hr
    obtain ⟨i, l, hi, hl, hs⟩ := extractLines_mem hr
    obtain ⟨hne, g, hm, rfl⟩ := standardStep_inv hs
    obtain ⟨j, p, hp, hg, he⟩ := firstMatch_inv hm
    have hj : j < standardPatterns.length := by
      by_contra hlt
      rw [List.getElem?_eq_none (by omega)] at hp
      cases hp
    have hj6 : j < 6 := by
      have hlen : standardPatterns.length = 6 := rfl
      omega
    have hdigitdot : ∀ toks : List Tok,
        (∀ t ∈ toks, ¬ tokSat t ':') → reMatchGroup toks (pyStrip l) = some g →
        ':' ∉ g := fun toks h1 h2 => no_colon_in_group h1 h2
    interval_cases j
    · simp only [standardPatterns, List.getElem?_cons_zero, Option.some.injEq] at hp
      subst hp
      refine hdigitdot pat_d3 ?_ hg
      intro t ht
      simp only [pat_d3, List.mem_cons, List.mem_singleton] at ht
      rcases ht with rfl | rfl | rfl | rfl | (rfl | h0)
      · simp only [tokSat]; decide
      · simp only [tokSat]; decide
      · simp only [tokSat]; decide
      · simp only [tokSat]; decide
      · simp only [tokSat]; decide
      · cases h0
    · simp only [standardPatterns, List.getElem?_cons_succ,
        List.getElem?_cons_zero, Option.some.injEq] at hp
      subst hp
      refine hdigitdot pat_d2 ?_ hg
      intro t ht
      simp only [pat_d2, List.mem_cons, List.mem_singleton] at ht
      rcases ht with rfl | rfl | (rfl | h0)
      · simp only [tokSat]; decide
      · simp only [tokSat]; decide
      · simp only [tokSat]; decide
      · cases h0
    · simp only [standardPatterns, List.getElem?_cons_succ,
        List.getElem?_cons_zero, Option.some.injEq] at hp
      subst hp
      refine hdigitdot pat_dDot ?_ hg
      intro t ht
      simp only [pat_dDot, List.mem_cons, List.mem_singleton] at ht
      rcases ht with rfl | (rfl | h0)
      · simp only [tokSat]; decide
      · simp only [tokSat]; decide
      · cases h0
    · simp only [standardPatterns, List.getElem?_cons_succ,
        List.getElem?_cons_zero, Option.some.injEq] at hp
      subst hp
      refine hdigitdot pat_d1 ?_ hg
      intro t ht
      simp only [pat_d1, List.mem_singleton] at ht
      subst ht
      simp only [tokSat]; decide
    · have hd1 : reMatchGroup pat_d1 (pyStrip l) = none :=
        he 3 pat_d1 (by omega) rfl
      have hnil := takeWhile_digits_nil_of_d1_none hd1
      simp only [standardPatterns, List.getElem?_cons_succ,
        List.getElem?_cons_zero, Option.some.injEq] at hp
      subst hp
      rw [show pat_dc2 = Tok.plus pyIsDigit ::
            [Tok.lit ':', Tok.plus pyIsDigit] from rfl,
          reMatchGroup_plus_head_none hnil] at hg
      cases hg
    · have hd1 : reMatchGroup pat_d1 (pyStrip l) = none :=
        he 3 pat_d1 (by omega) rfl
      have hnil := takeWhile_digits_nil_of_d1_none hd1
      simp only [standardPatterns, List.getElem?_cons_succ,
        List.getElem?_cons_zero, Option.some.injEq] at hp
      subst hp
      rw [show pat_dc3 = Tok.plus pyIsDigit ::
            [Tok.lit ':', Tok.plus pyIsDigit, Tok.lit ':', Tok.plus pyIsDigit] from rfl,
          reMatchGroup_plus_head_none hnil] at hg
      cases hg
  · decide

/-! ## Lemmas about the chapter isolator -/

theorem searchPos_eq_some {p : List Char → Bool} :
    ∀ {s : List Char} {i : Nat}, i ≤ s.length → p (s.drop i) = true →
      (∀ k < i, p (s.drop k) = false) → searchPos p s = some i := by
  intro s
  induction s with
  | nil =>
    intro i hi hp _
    have : i = 0 := by simpa using hi
    subst this
    simp only [searchPos, List.drop_nil] at hp ⊢
    rw [hp]
    rfl
  | cons c cs ih =>
    intro i hi hp hmin
    cases i with
    | zero =>
      simp only [List.drop_zero] at hp
      simp [searchPos, hp]
    | succ i =>
      have h0 : p (c :: cs) = false := by simpa using hmin 0 (Nat.succ_pos i)
      rw [searchPos, if_neg (by simp [h0])]
      have hrec : searchPos p cs = some i := by
        refine ih (by simpa using hi) (by simpa using hp) ?_
        intro k hk
        simpa using hmin (k + 1) (by omega)
      rw [hrec]
      rfl

theorem searchPos_eq_none {p : List Char → Bool} :
    ∀ {s : List Char}, (∀ k, k ≤ s.length → p (s.drop k) = false) →
      searchPos p s = none := by
  intro s
  induction s with
  | nil =>
    intro h
    have h0 : p [] = false := by simpa using h 0 (by simp)
    simp [searchPos, h0]
  | cons c cs ih =>
    intro h
    have h0 : p (c :: cs) = false := by simpa using h 0 (by simp)
    rw [searchPos, if_neg (by simp [h0])]
    rw [ih fun k hk => by simpa using h (k + 1) (by simpa using hk)]
    rfl

theorem drop_append_length {u v : List Char} (i : Nat) :
    (u ++ v).drop (u.length + i) = v.drop i := by
  induction u with
  | nil => simp
  | cons c u ih => simpa [Nat.succ_add] using ih

theorem searchPos_append {p : List Char → Bool} :
    ∀ {u v : List Char}, (∀ k, k < u.length → p ((u ++ v).drop k) = false) →
      searchPos p (u ++ v) = (searchPos p v).map (· + u.length) := by
  intro u
  induction u with
  | nil =>
    intro v _
    rw [List.nil_append]
    cases searchPos p v <;> simp
  | cons c u ih =>
    intro v h
    have h0 : p (c :: (u ++ v)) = false := by simpa using h 0 (by simp)
    rw [List.cons_append, searchPos, if_neg (by simp [h0])]
    rw [ih fun k hk => by simpa using h (k + 1) (by simpa using hk)]
    cases searchPos p v <;> simp <;> omega

theorem matchChapterAt_nil (n : Nat) : matchChapterAt n [] = false := rfl

theorem matchChapterPunctAt_nil (n : Nat) : matchChapterPunctAt n [] = false := rfl

theorem matchChAbbrevAt_nil (n : Nat) : matchChAbbrevAt n [] = false := rfl

theorem searchPos_some_ne_nil {p : List Char → Bool} {v : List Char} {i : Nat}
    (hnil : p [] = false) (h : searchPos p v = some i) : v ≠ [] := by
  intro hv
  subst hv
  rw [searchPos, if_neg (by simp [hnil])] at h
  cases h

theorem isEmpty_false_of_ne_nil {v : List Char} (h : v ≠ []) : v.isEmpty = false := by
  cases v with
  | nil => exact absurd rfl h
  | cons c cs => rfl

theorem isolate_chapter_shift {u v : List Char} {n : Nat}
    (h : ∀ k, k < u.length → matchChapterAt n ((u ++ v).drop k) = false) :
    isolate_chapter (u ++ v) n = isolate_chapter v n := by
  have hA := searchPos_append (p := matchChapterAt n) h
  cases hv : searchPos (matchChapterAt n) v with
  | none =>
    rw [hv] at hA
    simp only [Option.map_none'] at hA
    simp [isolate_chapter, hA, hv, ite_self]
  | some i =>
    rw [hv] at hA
    simp only [Option.map_some'] at hA
    have hvne : v ≠ [] := searchPos_some_ne_nil (matchChapterAt_nil n) hv
    have huvne : u ++ v ≠ [] := by
      intro hc
      exact hvne (List.append_eq_nil.mp hc).2
    have hdrop : (u ++ v).drop (i + u.length) = v.drop i := by
      rw [Nat.add_comm]
      exact drop_append_length i
    rw [isolate_chapter, if_neg (by simp [isEmpty_false_of_ne_nil huvne]),
        isolate_chapter, if_neg (by simp [isEmpty_false_of_ne_nil hvne])]
    simp only [hA, hv, hdrop]

theorem isolateOcrGo_shift :
    ∀ {pairs : List ((List Char → Bool) × (List Char → Bool))} {u v : List Char},
      (∀ pr ∈ pairs, pr.1 [] = false ∧
        ∀ k, k < u.length → pr.1 ((u ++ v).drop k) = false) →
      isolateOcrGo pairs (u ++ v) = isolateOcrGo pairs v := by
  intro pairs
  induction pairs with
  | nil => intro u v _; rfl
  | cons pr rest ih =>
    intro u v h
    obtain ⟨ps, pe⟩ := pr
    obtain ⟨hnil, hu⟩ := h _ (List.mem_cons_self _ _)
    have hA := searchPos_append (p := ps) hu
    cases hv : searchPos ps v with
    | none =>
      rw [hv] at hA
      simp only [Option.map_none'] at hA
      rw [isolateOcrGo, hA, isolateOcrGo, hv]
      exact ih fun q hq => h q (List.mem_cons_of_mem _ hq)
    | some i =>
      rw [hv] at hA
      simp only [Option.map_some'] at hA
      have hdrop : (u ++ v).drop (i + u.length) = v.drop i := by
        rw [Nat.add_comm]
        exact drop_append_length i
      simp only [isolateOcrGo, hA, hv, hdrop]

/-! ## Claim theorems about the chapter isolator -/

/-- Claim C3: when the least match of the chapter-`N` start marker is at
offset `i`, the isolator returns the slice from `i` to the least offset of
the chapter-`N+1` marker within the remaining text (exclusive), or to the
end of the text when no such end marker occurs. -/
theorem C3_isolate_slice (text : List Char) (n i : Nat)
    (hn : 0 < n) (hne : text ≠ [])
    (hstart : matchChapterAt n (text.drop i) = true)
    (hmin : ∀ k, k < i → matchChapterAt n (text.drop k) = false) :
    (∀ j, j ≤ (text.drop i).length →
      matchChapterAt (n + 1) ((text.drop i).drop j) = true →
      (∀ k, k < j → matchChapterAt (n + 1) ((text.drop i).drop k) = false) →
      isolate_chapter text n = some ((text.drop i).take j)) ∧
    ((∀ j, j ≤ (text.drop i).length →
        matchChapterAt (n + 1) ((text.drop i).drop j) = false) →
      isolate_chapter text n = some (text.drop i)) := by
  have hi : i ≤ text.length := by
    by_contra hgt
    rw [List.drop_eq_nil_of_le (by omega), matchChapterAt_nil] at hstart
    cases hstart
  have hsp : searchPos (matchChapterAt n) text = some i :=
    searchPos_eq_some hi hstart hmin
  have hnonempty : text.isEmpty = false := isEmpty_false_of_ne_nil hne
  constructor
  · intro j hj hend hendmin
    have hspe : searchPos (matchChapterAt (n + 1)) (text.drop i) = some j :=
      searchPos_eq_some hj hend hendmin
    rw [isolate_chapter, if_neg (by simp [hnonempty])]
    simp only [hsp, hspe]
  · intro hnoend
    have hspe : searchPos (matchChapterAt (n + 1)) (text.drop i) = none :=
      searchPos_eq_none fun k hk => hnoend k hk
    rw [isolate_chapter, if_neg (by simp [hnonempty])]
    simp only [hsp, hspe]

/-- Witness for C3 at the spec's synthetic document: isolating chapter 5
from `"intro CHAPTER 5 foo CHAPTER 6 bar"` returns exactly the span from
`"CHAPTER 5"` up to but excluding `"CHAPTER 6"`. -/
theorem C3_isolate_slice_witness :
    isolate_chapter ("intro CHAPTER 5 foo CHAPTER 6 bar".data) 5 =
      some ("CHAPTER 5 foo ".data) :=
  (C3_isolate_slice ("intro CHAPTER 5 foo CHAPTER 6 bar".data) 5 6
    (by decide) (by decide) (by decide) (by decide)).1 14
    (by decide) (by decide) (by decide)

/-- Claim C4: an occurrence of the chapter-`N+1` end pattern inside a prefix
that precedes chapter `N`'s own start marker cannot terminate the slice: as
long as no start pattern matches within the prefix, prepending the prefix
does not change the result of isolation, in the plain and the OCR variant
alike. -/
theorem C4_early_end_reference_harmless (u v : List Char) (n : Nat)
    (h1 : ∀ k, k < u.length → matchChapterAt n ((u ++ v).drop k) = false)
    (h3 : ∀ k, k < u.length → matchChapterPunctAt n ((u ++ v).drop k) = false)
    (h4 : ∀ k, k < u.length → matchChAbbrevAt n ((u ++ v).drop k) = false) :
    isolate_chapter (u ++ v) n = isolate_chapter v n ∧
    isolate_chapter_ocr (u ++ v) n = isolate_chapter_ocr v n := by
  refine ⟨isolate_chapter_shift h1, ?_⟩
  have hgo : isolateOcrGo (ocrPatternPairs n) (u ++ v) =
      isolateOcrGo (ocrPatternPairs n) v := by
    refine isolateOcrGo_shift ?_
    intro pr hpr
    simp only [ocrPatternPairs, List.mem_cons, List.mem_singleton] at hpr
    rcases hpr with rfl | rfl | rfl | (rfl | h0)
    · exact ⟨matchChapterAt_nil n, h1⟩
    · exact ⟨matchChapterAt_nil n, h1⟩
    · exact ⟨matchChapterPunctAt_nil n, h3⟩
    · exact ⟨matchChAbbrevAt_nil n, h4⟩
    · cases h0
  by_cases hv : v = []
  · subst hv
    simp only [List.append_nil] at h1 h3 h4 hgo
    have hu1 : ∀ k, k ≤ u.length → matchChapterAt n (u.drop k) = false := by
      intro k hk
      rcases Nat.lt_or_ge k u.length with hlt | hge
      · exact h1 k hlt
      · rw [List.drop_eq_nil_of_le hge]
        exact matchChapterAt_nil n
    have hu3 : ∀ k, k ≤ u.length → matchChapterPunctAt n (u.drop k) = false := by
      intro k hk
      rcases Nat.lt_or_ge k u.length with hlt | hge
      · exact h3 k hlt
      · rw [List.drop_eq_nil_of_le hge]
        exact matchChapterPunctAt_nil n
    have hu4 : ∀ k, k ≤ u.length → matchChAbbrevAt n (u.drop k) = false := by
      intro k hk
      rcases Nat.lt_or_ge k u.length with hlt | hge
      · exact h4 k hlt
      · rw [List.drop_eq_nil_of_le hge]
        exact matchChAbbrevAt_nil n
    have hnone : isolateOcrGo (ocrPatternPairs n) u = none := by
      simp [isolateOcrGo, ocrPatternPairs, searchPos_eq_none hu1,
        searchPos_eq_none hu3, searchPos_eq_none hu4]
    simp [isolate_chapter_ocr, hnone, ite_self]
  · have huvne : u ++ v ≠ [] := fun hc => hv (List.append_eq_nil.mp hc).2
    rw [isolate_chapter_ocr, if_neg (by simp [isEmpty_false_of_ne_nil huvne]),
        isolate_chapter_ocr, if_neg (by simp [isEmpty_false_of_ne_nil hv]), hgo]

/-- Witness for C4: the forward reference `"CHAPTER 6"` inside the prefix
`"see CHAPTER 6 later. "` does not change what isolating chapter 5 returns
on the rest of the document. -/
theorem C4_early_end_reference_harmless_witness :
    isolate_chapter (("see CHAPTER 6 later. ".data) ++
        ("CHAPTER 5 alpha CHAPTER 6 beta".data)) 5 =
      isolate_chapter ("CHAPTER 5 alpha CHAPTER 6 beta".data) 5 ∧
    isolate_chapter_ocr (("see CHAPTER 6 later. ".data) ++
        ("CHAPTER 5 alpha CHAPTER 6 beta".data)) 5 =
      isolate_chapter_ocr ("CHAPTER 5 alpha CHAPTER 6 beta".data) 5 :=
  C4_early_end_reference_harmless _ _ 5 (by decide) (by decide) (by decide)

/-- Claim C9: when no start pattern matches anywhere in the document, both
the plain isolator and the OCR isolator return `none` (Python `None`)
rather than raising. -/
theorem C9_absent_start_returns_none (text : List Char) (n : Nat)
    (h1 : ∀ k, k ≤ text.length → matchChapterAt n (text.drop k) = false)
    (h3 : ∀ k, k ≤ text.length → matchChapterPunctAt n (text.drop k) = false)
    (h4 : ∀ k, k ≤ text.length → matchChAbbrevAt n (text.drop k) = false) :
    isolate_chapter text n = none ∧ isolate_chapter_ocr text n = none := by
  have hs1 : searchPos (matchChapterAt n) text = none := searchPos_eq_none h1
  have hs3 : searchPos (matchChapterPunctAt n) text = none := searchPos_eq_none h3
  have hs4 : searchPos (matchChAbbrevAt n) text = none := searchPos_eq_none h4
  constructor
  · simp [isolate_chapter, hs1, ite_self]
  · simp [isolate_chapter_ocr, isolateOcrGo, ocrPatternPairs, hs1, hs3, hs4, ite_self]

/-- Witness for C9: a document with no chapter marker at all. -/
theorem C9_absent_start_returns_none_witness :
    isolate_chapter ("hello world".data) 3 = none ∧
    isolate_chapter_ocr ("hello world".data) 3 = none :=
  C9_absent_start_returns_none ("hello world".data) 3
    (by decide) (by decide) (by decide)

/-! ## Lemmas about the response cleaner -/

theorem pyStrip_sublist (s : List Char) : List.Sublist (pyStrip s) s := by
  have h1 : List.Sublist (s.dropWhile pyIsSpace) s := List.dropWhile_sublist _
  have h2 : List.Sublist ((s.dropWhile pyIsSpace).reverse.dropWhile pyIsSpace)
      (s.dropWhile pyIsSpace).reverse := List.dropWhile_sublist _
  have h3 := h2.reverse
  rw [List.reverse_reverse] at h3
  exact h3.trans h1

theorem dropFence_sublist (s : List Char) : List.Sublist (dropFence s) s := by
  unfold dropFence
  split
  · exact (List.dropWhile_sublist _).trans (List.drop_sublist _ _)
  split
  · exact (List.dropWhile_sublist _).trans (List.drop_sublist _ _)
  · exact List.Sublist.refl s

theorem dropFenceEnd_sublist (s : List Char) : List.Sublist (dropFenceEnd s) s := by
  unfold dropFenceEnd
  split
  · have h2 : List.Sublist ((s.take (s.length - 3)).reverse.dropWhile pyIsSpace)
        ((s.take (s.length - 3)).reverse) := List.dropWhile_sublist _
    have h3 := h2.reverse
    rw [List.reverse_reverse] at h3
    exact h3.trans (List.take_sublist _ _)
  · exact List.Sublist.refl s

theorem firstIdx_sound {ch : Char} :
    ∀ {s : List Char} {i : Nat}, firstIdx ch s = some i → s[i]? = some ch := by
  intro s
  induction s with
  | nil => intro i h; cases h
  | cons c cs ih =>
    intro i h
    rw [firstIdx] at h
    split at h
    next hc =>
      cases h
      simpa using hc
    next =>
      cases hrec : firstIdx ch cs with
      | none => rw [hrec] at h; cases h
      | some j =>
        rw [hrec] at h
        cases h
        simpa using ih hrec

theorem lastIdx_sound {ch : Char} {s : List Char} {i : Nat}
    (h : lastIdx ch s = some i) : s[i]? = some ch := by
  unfold lastIdx at h
  cases hrec : firstIdx ch s.reverse with
  | none => rw [hrec] at h; cases h
  | some k =>
    rw [hrec] at h
    cases h
    have hk := firstIdx_sound hrec
    have hklt : k < s.reverse.length := by
      by_contra hge
      rw [List.getElem?_eq_none (by omega)] at hk
      cases hk
    rw [List.getElem?_reverse (by simpa using hklt)] at hk
    exact hk

theorem bracePair_of_getElem :
    ∀ {s : List Char} {i j : Nat}, i < j → s[i]? = some lbrace →
      s[j]? = some rbrace → hasBracePair s = true := by
  intro s
  induction s with
  | nil => intro i j _ hi _; cases hi
  | cons c cs ih =>
    intro i j hij hi hj
    cases i with
    | zero =>
      rw [List.getElem?_cons_zero] at hi
      cases hi
      cases j with
      | zero => omega
      | succ j =>
        rw [List.getElem?_cons_succ] at hj
        have hmem : rbrace ∈ cs := List.getElem?_mem hj
        rw [hasBracePair]
        refine Bool.or_eq_true_iff.mpr (Or.inl ?_)
        exact Bool.and_eq_true_iff.mpr ⟨by simp, List.elem_iff.mpr hmem⟩
    | succ i =>
      rw [List.getElem?_cons_succ] at hi
      cases j with
      | zero => omega
      | succ j =>
        rw [List.getElem?_cons_succ] at hj
        rw [hasBracePair]
        simp [ih (by omega) hi hj]

theorem hasBracePair_mono :
    ∀ {s t : List Char}, List.Sublist s t → hasBracePair s = true →
      hasBracePair t = true := by
  intro s t h
  induction h with
  | slnil => intro h0; cases h0
  | cons a _ ih =>
    intro hs
    rw [hasBracePair]
    simp [ih hs]
  | @cons₂ l₁ l₂ a h ih =>
    intro hs
    rw [hasBracePair] at hs ⊢
    rcases Bool.or_eq_true_iff.mp hs with h1 | h2
    · rcases Bool.and_eq_true_iff.mp h1 with ⟨ha, hc⟩
      have hmem : rbrace ∈ l₁ := List.elem_iff.mp hc
      have hmem2 : rbrace ∈ l₂ := h.mem hmem
      refine Bool.or_eq_true_iff.mpr (Or.inl ?_)
      exact Bool.and_eq_true_iff.mpr ⟨ha, List.elem_iff.mpr hmem2⟩
    · simp [ih h2]

/-! ## Claim theorem about the response cleaner -/

/-- Claim C6: the response cleaner strips control characters and markdown
fences and returns the substring between the first `{` and the last
`}`; on the spec example it returns exactly the seven-character JSON
object text, and on any input with no `{` followed later by a `}` it
returns the empty string. -/
theorem C6_clean_response_text :
    clean_response_text ("Here you go:\n```json\n\x7b\"a\":1\x7d\n```\nThanks".data) =
      ("\x7b\"a\":1\x7d".data) ∧
    ∀ text : List Char, hasBracePair text = false →
      clean_response_text text = [] := by
  constructor
  · decide
  · intro text hnone
    have hsub : List.Sublist (dropFenceEnd (dropFence (pyStrip (stripControl text)))) text :=
      ((dropFenceEnd_sublist _).trans (dropFence_sublist _)).trans
        ((pyStrip_sublist _).trans (List.filter_sublist _))
    unfold clean_response_text
    cases hfb : firstIdx lbrace (dropFenceEnd (dropFence (pyStrip (stripControl text)))) with
    | none => simp [hfb]
    | some fb =>
      cases hlb : lastIdx rbrace (dropFenceEnd (dropFence (pyStrip (stripControl text)))) with
      | none => simp [hfb, hlb]
      | some lb =>
        simp only [hfb, hlb]
        by_cases hlt : fb < lb
        · exfalso
          have hpair := bracePair_of_getElem hlt (firstIdx_sound hfb) (lastIdx_sound hlb)
          have := hasBracePair_mono hsub hpair
          rw [hnone] at this
          cases this
        · simp [hlt]

/-- Witness for C6 on an input with no brace pair. -/
theorem C6_clean_response_text_witness :
    hasBracePair ("no json here".data) = false ∧
    clean_response_text ("no json here".data) = [] :=
  ⟨by decide, C6_clean_response_text.2 ("no json here".data) (by decide)⟩

/-! ## Lemmas about the manifest builders -/

theorem chapterLoop_counts (entry? : PdfFile → Option ChapterEntry) :
    ∀ (pdfs : List PdfFile) (chs : List ChapterEntry) (tot : Nat),
      (chapterLoop entry? pdfs (chs, tot)).2 + chs.length =
        tot + (chapterLoop entry? pdfs (chs, tot)).1.length := by
  intro pdfs
  induction pdfs with
  | nil => intro chs tot; simp [chapterLoop]
  | cons pdf rest ih =>
    intro chs tot
    rw [chapterLoop]
    cases he : entry? pdf with
    | none =>
      simp only [he]
      exact ih chs tot
    | some e =>
      simp only [he]
      have h := ih (chs ++ [e]) (tot + 1)
      simp only [List.length_append, List.length_cons, List.length_nil] at h ⊢
      omega

theorem chapterLoop_all {P : ChapterEntry → Prop}
    {entry? : PdfFile → Option ChapterEntry}
    (hE : ∀ pdf e, entry? pdf = some e → P e) :
    ∀ (pdfs : List PdfFile) (chs : List ChapterEntry) (tot : Nat),
      (∀ c ∈ chs, P c) →
      ∀ c ∈ (chapterLoop entry? pdfs (chs, tot)).1, P c := by
  intro pdfs
  induction pdfs with
  | nil =>
    intro chs tot h
    simpa [chapterLoop] using h
  | cons pdf rest ih =>
    intro chs tot h
    rw [chapterLoop]
    cases he : entry? pdf with
    | none =>
      simp only [he]
      exact ih chs tot h
    | some e =>
      simp only [he]
      refine ih (chs ++ [e]) (tot + 1) ?_
      intro c hc
      rcases List.mem_append.mp hc with h1 | h2
      · exact h c h1
      · rw [List.mem_singleton.mp h2]
        exact hE pdf e he

theorem sortChapters_length (chs : List ChapterEntry) :
    (sortChapters chs).length = chs.length :=
  List.length_insertionSort _ _

theorem sortChapters_mem {c : ChapterEntry} {chs : List ChapterEntry} :
    c ∈ sortChapters chs ↔ c ∈ chs :=
  List.mem_insertionSort _

theorem sortSections_perm (secs : List SectionEntry) :
    (sortSections secs).Perm secs := by
  unfold sortSections
  split
  · exact List.perm_insertionSort _ _
  · exact List.Perm.refl _

theorem carakaSections_props {P : ChapterEntry → Prop} (sid : List Char)
    (hE : ∀ name pdf e, carakaEntry sid name pdf = some e → P e) :
    ∀ (folders : List Folder) (secs : List SectionEntry) (tot : Nat),
      ((carakaSections sid folders (secs, tot)).2 +
          (secs.map (fun s => s.chapterCount)).sum =
        tot + (((carakaSections sid folders (secs, tot)).1.map
          (fun s => s.chapterCount)).sum)) ∧
      ((∀ s ∈ secs, s.chapterCount = s.chapters.length ∧ ∀ c ∈ s.chapters, P c) →
        ∀ s ∈ (carakaSections sid folders (secs, tot)).1,
          s.chapterCount = s.chapters.length ∧ ∀ c ∈ s.chapters, P c) := by
  intro folders
  induction folders with
  | nil =>
    intro secs tot
    constructor
    · simp [carakaSections]
    · intro h
      simpa [carakaSections] using h
  | cons f rest ih =>
    intro secs tot
    rw [carakaSections]
    cases hp : f.pdfs.isEmpty with
    | true =>
      simp only [if_pos rfl]
      exact ih secs tot
    | false =>
      rw [if_neg Bool.false_ne_true]
      dsimp only
      set pair := chapterLoop (carakaEntry sid f.name) f.pdfs ([], tot) with hpair
      set sec : SectionEntry :=
        { sectionId := (carakaSectionInfo f.name).1,
          sectionName := (carakaSectionInfo f.name).2,
          sectionNameEnglish :=
            lookupTranslation SECTION_TRANSLATIONS (carakaSectionInfo f.name).2,
          chapterCount := (sortChapters pair.1).length,
          chapters := sortChapters pair.1 } with hsec
      obtain ⟨ih1, ih2⟩ := ih (secs ++ [sec]) pair.2
      constructor
      · have hcl := chapterLoop_counts (carakaEntry sid f.name) f.pdfs [] tot
        rw [← hpair] at hcl
        simp only [List.length_nil, Nat.add_zero] at hcl
        have hsum : ((secs ++ [sec]).map (fun s => s.chapterCount)).sum =
            (secs.map (fun s => s.chapterCount)).sum + pair.1.length := by
          simp [hsec, sortChapters_length]
        rw [hsum] at ih1
        omega
      · intro h
        refine ih2 ?_
        intro s hs
        rcases List.mem_append.mp hs with h1 | h2
        · exact h s h1
        · rw [List.mem_singleton.mp h2]
          refine ⟨rfl, ?_⟩
          intro c hc
          rw [hsec] at hc
          simp only at hc
          have hc2 := sortChapters_mem.mp hc
          exact chapterLoop_all (fun pdf e he => hE f.name pdf e he)
            f.pdfs [] tot (by simp) c (by rw [hpair] at hc2; exact hc2)

theorem sushrutaSections_props {P : ChapterEntry → Prop}
    (hE : ∀ name pdf e, sushrutaEntry name pdf = some e → P e) :
    ∀ (folders : List Folder) (secs : List SectionEntry) (tot : Nat),
      ((sushrutaSections folders (secs, tot)).2 +
          (secs.map (fun s => s.chapterCount)).sum =
        tot + (((sushrutaSections folders (secs, tot)).1.map
          (fun s => s.chapterCount)).sum)) ∧
      ((∀ s ∈ secs, s.chapterCount = s.chapters.length ∧ ∀ c ∈ s.chapters, P c) →
        ∀ s ∈ (sushrutaSections folders (secs, tot)).1,
          s.chapterCount = s.chapters.length ∧ ∀ c ∈ s.chapters, P c) := by
  intro folders
  induction folders with
  | nil =>
    intro secs tot
    constructor
    · simp [sushrutaSections]
    · intro h
      simpa [sushrutaSections] using h
  | cons f rest ih =>
    intro secs tot
    rw [sushrutaSections]
    set pair := chapterLoop (sushrutaEntry f.name) f.pdfs ([], tot) with hpair
    set sec : SectionEntry :=
      { sectionId := (sushrutaSectionInfo f.name).1,
        sectionName := (sushrutaSectionInfo f.name).2,
        sectionNameEnglish :=
          lookupTranslation SUSHRUTA_TRANSLATIONS (sushrutaSectionInfo f.name).2,
        chapterCount := (sortChapters pair.1).length,
        chapters := sortChapters pair.1 } with hsec
    obtain ⟨ih1, ih2⟩ := ih (secs ++ [sec]) pair.2
    constructor
    · have hcl := chapterLoop_counts (sushrutaEntry f.name) f.pdfs [] tot
      rw [← hpair] at hcl
      simp only [List.length_nil, Nat.add_zero] at hcl
      have hsum : ((secs ++ [sec]).map (fun s => s.chapterCount)).sum =
          (secs.map (fun s => s.chapterCount)).sum + pair.1.length := by
        simp [hsec, sortChapters_length]
      rw [hsum] at ih1
      omega
    · intro h
      refine ih2 ?_
      intro s hs
      rcases List.mem_append.mp hs with h1 | h2
      · exact h s h1
      · rw [List.mem_singleton.mp h2]
        refine ⟨rfl, ?_⟩
        intro c hc
        rw [hsec] at hc
        simp only at hc
        have hc2 := sortChapters_mem.mp hc
        exact chapterLoop_all (fun pdf e he => hE f.name pdf e he)
          f.pdfs [] tot (by simp) c (by rw [hpair] at hc2; exact hc2)

theorem caraka_output_props {P : ChapterEntry → Prop} {folders : List Folder}
    {m : Manifest} (hm : generate_chapter_manifest folders = some m)
    (hE : ∀ name pdf e, carakaEntry ("caraka_samhita".data) name pdf = some e → P e) :
    m.totalChapters = (m.sections.map (fun s => s.chapterCount)).sum ∧
    ∀ s ∈ m.sections, s.chapterCount = s.chapters.length ∧ ∀ c ∈ s.chapters, P c := by
  rw [generate_chapter_manifest] at hm
  split at hm
  · cases hm
  · obtain ⟨h1, h2⟩ := carakaSections_props ("caraka_samhita".data) hE folders [] 0
    simp only [List.map_nil, List.sum_nil, Nat.add_zero, Nat.zero_add] at h1
    have hall := h2 (by simp)
    have hperm := sortSections_perm
      (carakaSections ("caraka_samhita".data) folders ([], 0)).1
    cases hm
    constructor
    · dsimp only
      rw [h1]
      exact (List.Perm.sum_eq (hperm.map (fun s => s.chapterCount))).symm
    · dsimp only
      intro s hs
      exact hall s (hperm.mem_iff.mp hs)

theorem sushruta_output_props {P : ChapterEntry → Prop} (folders : List Folder)
    (hE : ∀ name pdf e, sushrutaEntry name pdf = some e → P e) :
    (sushruta_main folders).totalChapters =
      ((sushruta_main folders).sections.map (fun s => s.chapterCount)).sum ∧
    ∀ s ∈ (sushruta_main folders).sections,
      s.chapterCount = s.chapters.length ∧ ∀ c ∈ s.chapters, P c := by
  obtain ⟨h1, h2⟩ := sushrutaSections_props hE folders [] 0
  simp only [List.map_nil, List.sum_nil, Nat.add_zero, Nat.zero_add] at h1
  have hall := h2 (by simp)
  have hperm := sortSections_perm (sushrutaSections folders ([], 0)).1
  rw [sushruta_main]
  constructor
  · dsimp only
    rw [h1]
    exact (List.Perm.sum_eq (hperm.map (fun s => s.chapterCount))).symm
  · dsimp only
    intro s hs
    exact hall s (hperm.mem_iff.mp hs)

theorem carakaEntry_title {sid name : List Char} {pdf : PdfFile} {e : ChapterEntry}
    (h : carakaEntry sid name pdf = some e) :
    e.title = ("Chapter ".data) ++ intToStr e.chapterNumber := by
  rw [carakaEntry] at h
  cases hn : (chapterToken pdf.stem).bind pyInt with
  | none => rw [hn] at h; cases h
  | some num =>
    simp only [hn] at h
    cases h
    rfl

theorem sushrutaEntry_title {name : List Char} {pdf : PdfFile} {e : ChapterEntry}
    (h : sushrutaEntry name pdf = some e) :
    e.title = ("Chapter ".data) ++ intToStr e.chapterNumber := by
  rw [sushrutaEntry] at h
  cases hn : (chapterToken pdf.stem).bind pyInt with
  | none => rw [hn] at h; cases h
  | some num =>
    simp only [hn] at h
    cases h
    rfl

theorem ramayanaEntry_title {folderName : List Char} {pdf : PdfFile}
    {e : ChapterEntry} (h : ramayanaEntry folderName pdf = some e) :
    (∀ t, pdf.sibling = JsonSibling.withTitle t → e.title = t) ∧
    ((∀ t, pdf.sibling ≠ JsonSibling.withTitle t) →
      e.title = derive_fallback_title pdf.stem) := by
  rw [ramayanaEntry] at h
  cases hn : extract_chapter_number (pdf.stem ++ (".pdf".data)) with
  | none => rw [hn] at h; cases h
  | some num =>
    simp only [hn] at h
    cases hsib : pdf.sibling with
    | absent =>
      simp only [hsib] at h
      cases h
      refine ⟨?_, fun _ => rfl⟩
      intro t ht
      cases ht
    | unreadable =>
      simp only [hsib] at h
      cases h
      refine ⟨?_, fun _ => rfl⟩
      intro t ht
      cases ht
    | withoutTitle =>
      simp only [hsib] at h
      cases h
      refine ⟨?_, fun _ => rfl⟩
      intro t ht
      cases ht
    | withTitle t0 =>
      simp only [hsib] at h
      cases h
      constructor
      · intro t ht
        cases ht
        rfl
      · intro hno
        exact absurd rfl (hno t0)

/-! ## Claim theorems about the manifest builders -/

/-- Claim C5: for every directory listing, the manifests produced by the
Caraka and the Sushruta builders satisfy `totalChapters = Σ chapterCount`
over the sections, and each section's `chapterCount` equals the length of
its `chapters` list. -/
theorem C5_manifest_counts (folders : List Folder) (m m2 : Manifest)
    (hm : generate_chapter_manifest folders = some m)
    (hm2 : sushruta_main folders = m2) :
    (m.totalChapters = (m.sections.map (fun s => s.chapterCount)).sum ∧
      ∀ s ∈ m.sections, s.chapterCount = s.chapters.length) ∧
    (m2.totalChapters = (m2.sections.map (fun s => s.chapterCount)).sum ∧
      ∀ s ∈ m2.sections, s.chapterCount = s.chapters.length) := by
  subst hm2
  have hc := caraka_output_props (P := fun _ => True) hm (fun _ _ _ _ => trivial)
  have hsu := sushruta_output_props (P := fun _ => True) folders (fun _ _ _ _ => trivial)
  exact ⟨⟨hc.1, fun s hs => (hc.2 s hs).1⟩, ⟨hsu.1, fun s hs => (hsu.2 s hs).1⟩⟩

/-- Witness for C5 on a small synthetic tree (one section with two chapter
PDFs in reverse name order, one section folder without PDFs). -/
theorem C5_manifest_counts_witness :
    ((generate_chapter_manifest
        [⟨"Section_1_Sutrasthanam".data,
          [⟨"X_Chapter_2".data, JsonSibling.absent⟩,
           ⟨"X_Chapter_1".data, JsonSibling.withTitle ("T".data)⟩]⟩,
         ⟨"Section_2_Nidanasthanam".data, []⟩]).getD emptyManifest).totalChapters =
      ((((generate_chapter_manifest
        [⟨"Section_1_Sutrasthanam".data,
          [⟨"X_Chapter_2".data, JsonSibling.absent⟩,
           ⟨"X_Chapter_1".data, JsonSibling.withTitle ("T".data)⟩]⟩,
         ⟨"Section_2_Nidanasthanam".data, []⟩]).getD emptyManifest).sections.map
        (fun s => s.chapterCount)).sum) ∧
    (sushruta_main
        [⟨"Section_1_Sutrasthanam".data,
          [⟨"X_Chapter_2".data, JsonSibling.absent⟩,
           ⟨"X_Chapter_1".data, JsonSibling.withTitle ("T".data)⟩]⟩,
         ⟨"Section_2_Nidanasthanam".data, []⟩]).totalChapters =
      (((sushruta_main
        [⟨"Section_1_Sutrasthanam".data,
          [⟨"X_Chapter_2".data, JsonSibling.absent⟩,
           ⟨"X_Chapter_1".data, JsonSibling.withTitle ("T".data)⟩]⟩,
         ⟨"Section_2_Nidanasthanam".data, []⟩]).sections.map
        (fun s => s.chapterCount)).sum) :=
  ⟨(C5_manifest_counts
      [⟨"Section_1_Sutrasthanam".data,
        [⟨"X_Chapter_2".data, JsonSibling.absent⟩,
         ⟨"X_Chapter_1".data, JsonSibling.withTitle ("T".data)⟩]⟩,
       ⟨"Section_2_Nidanasthanam".data, []⟩] _ _ rfl rfl).1.1,
   (C5_manifest_counts
      [⟨"Section_1_Sutrasthanam".data,
        [⟨"X_Chapter_2".data, JsonSibling.absent⟩,
         ⟨"X_Chapter_1".data, JsonSibling.withTitle ("T".data)⟩]⟩,
       ⟨"Section_2_Nidanasthanam".data, []⟩] _ _ rfl rfl).2.1⟩

/-- Counterexample to claim C2 as stated: in the Caraka builder a chapter
file whose sibling metadata JSON exists (and contains the chapter title
`"Deerghanjiviteeya Adhyaya"`) still gets the convention fallback title
`"Chapter 1"`; the sibling's presence is visible in the entry's
`hasMetadata` flag. -/
theorem C2_counterexample :
    ((generate_chapter_manifest
        [⟨"Section_1_Sutrasthanam".data,
          [⟨"Chapter_1".data,
            JsonSibling.withTitle ("Deerghanjiviteeya Adhyaya".data)⟩]⟩]).map
      fun m => m.sections.map fun s => s.chapters.map fun c =>
        (c.title, c.hasMetadata)) =
      some [[(("Chapter 1".data), true)]] ∧
    ("Chapter 1".data) ≠ ("Deerghanjiviteeya Adhyaya".data) :=
  ⟨rfl, by decide⟩

/-- Claim C2, amended: only the Ramayana manifest builder reads the chapter
title from the sibling metadata JSON — its chapter entries carry the JSON's
`chapterTitle` whenever the sibling exists, is readable and has that key,
and the filename-derived fallback title otherwise — while the Caraka and
Sushruta builders always set the convention fallback `"Chapter {n}"`,
whether or not the sibling JSON exists. -/
theorem C2_title_sources (folders : List Folder) (m m2 : Manifest)
    (hm : generate_chapter_manifest folders = some m)
    (hm2 : sushruta_main folders = m2) :
    (∀ s ∈ m.sections, ∀ c ∈ s.chapters,
      c.title = ("Chapter ".data) ++ intToStr c.chapterNumber) ∧
    (∀ s ∈ m2.sections, ∀ c ∈ s.chapters,
      c.title = ("Chapter ".data) ++ intToStr c.chapterNumber) ∧
    (∀ (folderName : List Char) (pdf : PdfFile) (e : ChapterEntry),
      ramayanaEntry folderName pdf = some e →
        (∀ t, pdf.sibling = JsonSibling.withTitle t → e.title = t) ∧
        ((∀ t, pdf.sibling ≠ JsonSibling.withTitle t) →
          e.title = derive_fallback_title pdf.stem)) := by
  subst hm2
  have hc := caraka_output_props
    (P := fun c => c.title = ("Chapter ".data) ++ intToStr c.chapterNumber) hm
    (fun _ _ _ h => carakaEntry_title h)
  have hsu := sushruta_output_props
    (P := fun c => c.title = ("Chapter ".data) ++ intToStr c.chapterNumber) folders
    (fun _ _ _ h => sushrutaEntry_title h)
  refine ⟨?_, ?_, fun fn pdf e h => ramayanaEntry_title h⟩
  · intro s hs c hcm
    exact (hc.2 s hs).2 c hcm
  · intro s hs c hcm
    exact (hsu.2 s hs).2 c hcm

/-- Witness for C2 (amended) at a concrete Ramayana chapter whose sibling
JSON carries a title: that title is used verbatim. -/
theorem C2_title_sources_witness :
    ((ramayanaEntry ("1. Bala Kanda".data)
        ⟨"CHAPTER 1 Rama".data, JsonSibling.withTitle ("The Birth".data)⟩).getD
      emptyChapterEntry).title = ("The Birth".data) :=
  ((C2_title_sources [⟨"S".data, []⟩] _ _ rfl rfl).2.2 ("1. Bala Kanda".data)
      ⟨"CHAPTER 1 Rama".data, JsonSibling.withTitle ("The Birth".data)⟩ _ rfl).1
    ("The Birth".data) rfl

end MyGurukul
